import Mathlib

/-!
Verification of the `light_serve` HTTP adapter layer.

The Go sources are shallowly embedded: a byte string is a `List Char` with one
item per byte (all inputs of interest are ASCII, and every Go `strings`
operation used by the code is byte-oriented on such inputs).  Go maps used as
header containers are association lists with overwrite-on-exact-key semantics;
Go's multi-return `(value, n, error)` convention becomes `Except`.
Functions keep the names of the Go functions they embed
(`parser.go`, `response.go`, `router.go`, `conn.go`, `middleware.go`).
-/

namespace LightServe

abbrev Bytes := List Char

/-- Coerce a Lean string literal to its byte list. -/
def str (s : String) : Bytes := s.data

/-- ASCII fragment of Go `unicode.IsSpace` (`'\t'`, `'\n'`, `'\v'`, `'\f'`,
`'\r'`, `' '`).  The remaining Unicode white-space code points are multi-byte
in UTF-8 and so never arise as single bytes of the modelled byte strings. -/
def goIsSpace (c : Char) : Bool :=
  c = ' ' || c = '\t' || c = '\n' || c = Char.ofNat 11 || c = Char.ofNat 12 || c = '\r'

/-- Go `strings.TrimSpace` (ASCII): drop white space from both ends. -/
def trimSpace (s : Bytes) : Bytes :=
  ((s.dropWhile goIsSpace).reverse.dropWhile goIsSpace).reverse

/-- ASCII case lowering of one byte, as Go `strings.ToLower` acts on ASCII. -/
def goToLowerChar (c : Char) : Char :=
  if 'A' ≤ c ∧ c ≤ 'Z' then Char.ofNat (c.toNat + 32) else c

/-- Go `strings.ToLower` (ASCII). -/
def goToLower (s : Bytes) : Bytes := s.map goToLowerChar

/-- ASCII case raising of one byte, as Go `strings.ToUpper` acts on ASCII. -/
def goToUpperChar (c : Char) : Char :=
  if 'a' ≤ c ∧ c ≤ 'z' then Char.ofNat (c.toNat - 32) else c

/-- Go `strings.ToUpper` (ASCII). -/
def goToUpper (s : Bytes) : Bytes := s.map goToUpperChar

/-- Go `strings.Index`: position of the first occurrence of `pat`, if any. -/
def firstOccur (pat : Bytes) : Bytes → Option Nat
  | [] => if pat = [] then some 0 else none
  | c :: rest =>
    if pat.isPrefixOf (c :: rest) then some 0
    else (firstOccur pat rest).map (· + 1)

/-- Go `strings.Split(s, sep)` for a one-byte separator (always non-empty). -/
def splitOnByte (sep : Char) : Bytes → List Bytes
  | [] => [[]]
  | c :: rest =>
    match splitOnByte sep rest with
    | [] => [[c]]
    | h :: t => if c = sep then [] :: h :: t else (c :: h) :: t

/-- Accumulator loop for `fields`. -/
def fieldsAux (cur : Bytes) : Bytes → List Bytes
  | [] => if cur = [] then [] else [cur.reverse]
  | c :: rest =>
    if goIsSpace c then
      if cur = [] then fieldsAux [] rest else cur.reverse :: fieldsAux [] rest
    else fieldsAux (c :: cur) rest

/-- Go `strings.Fields`: maximal runs of non-white-space bytes. -/
def fields (s : Bytes) : List Bytes := fieldsAux [] s

/-- Go `strings.HasSuffix`, written exactly as its definition:
`len(s) >= len(suffix) && s[len(s)-len(suffix):] == suffix`. -/
def hasSuffix (s suffix : Bytes) : Bool :=
  suffix.length ≤ s.length && s.drop (s.length - suffix.length) = suffix

/-- Go `strings.TrimSuffix`. -/
def trimSuffix (s suffix : Bytes) : Bytes :=
  if hasSuffix s suffix then s.take (s.length - suffix.length) else s

/-- Go `strings.EqualFold` restricted to ASCII folding. -/
def equalFold (a b : Bytes) : Bool := goToLower a = goToLower b

/-- Decimal digits of a digit string, `none` on empty or non-digit input. -/
def digitsToNat? : Bytes → Option Nat
  | [] => none
  | l => go l 0
where
  go : Bytes → Nat → Option Nat
    | [], acc => some acc
    | c :: rest, acc =>
      if '0' ≤ c ∧ c ≤ '9' then go rest (acc * 10 + (c.toNat - 48)) else none

/-- Go `strconv.Atoi` (= `ParseInt(s, 10, 0)` on a 64-bit platform): optional
sign, decimal digits, `none` on empty/ill-formed input or on a value outside
the signed 64-bit range (Go reports `ErrRange` there, a non-nil error). -/
def goAtoi (s : Bytes) : Option Int :=
  match s with
  | [] => none
  | c :: rest =>
    let signDigits : Bool × Bytes :=
      if c = '-' then (true, rest) else if c = '+' then (false, rest) else (false, c :: rest)
    match digitsToNat? signDigits.2 with
    | none => none
    | some v =>
      let i : Int := if signDigits.1 then -(v : Int) else (v : Int)
      if i < -(2 ^ 63) ∨ i > 2 ^ 63 - 1 then none else some i

/-- Fuel-driven decimal rendering of a natural number (there is enough fuel
whenever `fuel > n`). -/
def natToBytesAux : Nat → Nat → Bytes
  | 0, _ => []
  | fuel + 1, n =>
    if n < 10 then [Char.ofNat (48 + n)]
    else natToBytesAux fuel (n / 10) ++ [Char.ofNat (48 + n % 10)]

/-- Decimal rendering of a natural number (`strconv.Itoa` on naturals). -/
def natToBytes (n : Nat) : Bytes := natToBytesAux (n + 1) n

/-- Go `strconv.Itoa`. -/
def intToBytes (i : Int) : Bytes :=
  if i < 0 then '-' :: natToBytes (-i).toNat else natToBytes i.toNat

/-! ### Header containers (Go `map[string]string`)

Modelled as association lists.  A Go map write replaces the value of an
existing key and otherwise adds the key; iteration order of a Go map is
unspecified, and no verified property below depends on the list order. -/

abbrev HeaderMap := List (Bytes × Bytes)

/-- Go map write `m[k] = v`. -/
def mapSet {α : Type} (m : List (Bytes × α)) (k : Bytes) (v : α) : List (Bytes × α) :=
  match m with
  | [] => [(k, v)]
  | (k', v') :: rest => if k' = k then (k, v) :: rest else (k', v') :: mapSet rest k v

/-- Go map lookup `v, ok := m[k]`. -/
def mapGet? {α : Type} (m : List (Bytes × α)) (k : Bytes) : Option α :=
  match m with
  | [] => none
  | (k', v') :: rest => if k' = k then some v' else mapGet? rest k

/-- Go map read `m[k]` (zero value `""` when the key is absent). -/
def mapGetD (m : HeaderMap) (k : Bytes) : Bytes := (mapGet? m k).getD []

/-! ### Wire types -/

/-- `Request` (request.go).  The Go `Ctx context.Context` field is a
concurrency handle with no bearing on any verified claim and is omitted. -/
structure Request where
  method : Bytes
  path : Bytes
  version : Bytes
  headers : HeaderMap
  body : Bytes
deriving DecidableEq, Repr

/-- `Response` (response.go lines 10-14). -/
structure Response where
  statusCode : Int
  headers : HeaderMap
  body : Bytes
deriving DecidableEq, Repr

/-- `NewResponse` (response.go lines 17-23). -/
def NewResponse : Response := { statusCode := 200, headers := [], body := [] }

/-- `Response.SetHeader` (response.go lines 26-31); the `nil` map case of the
Go code is the empty list here. -/
def Response.SetHeader (r : Response) (k v : Bytes) : Response :=
  { r with headers := mapSet r.headers k v }

/-- `Response.WriteString` (response.go lines 40-42). -/
def Response.WriteString (r : Response) (body : Bytes) : Response :=
  { r with body := body }

/-- `statusText` (response.go lines 74-97). -/
def statusText (code : Int) : Bytes :=
  if code = 200 then str "OK"
  else if code = 201 then str "Created"
  else if code = 204 then str "No Content"
  else if code = 400 then str "Bad Request"
  else if code = 401 then str "Unauthorized"
  else if code = 404 then str "Not Found"
  else if code = 405 then str "Method Not Allowed"
  else if code = 408 then str "Request Timeout"
  else if code = 500 then str "Internal Server Error"
  else str "Unknown"

/-- `hasHeaderIgnoreCase` (response.go lines 100-107). -/
def hasHeaderIgnoreCase (headers : HeaderMap) (target : Bytes) : Bool :=
  headers.any fun kv => equalFold kv.1 target

/-- The header map at serialisation time: `Bytes` (response.go lines 50-52)
first injects `Content-Length` when no case-insensitive match exists. -/
def Response.serialHeaders (r : Response) : HeaderMap :=
  if hasHeaderIgnoreCase r.headers (str "Content-Length") then r.headers
  else mapSet r.headers (str "Content-Length") (natToBytes r.body.length)

/-- One serialised header line `key: value\r\n` (response.go lines 61-66). -/
def headerLine (kv : Bytes × Bytes) : Bytes :=
  kv.1 ++ str ": " ++ kv.2 ++ str "\r\n"

/-- `Response.Bytes` (response.go lines 45-71): status line, header lines,
blank line, body. -/
def Response.Bytes (r : Response) : Bytes :=
  str "HTTP/1.1 " ++ intToBytes r.statusCode ++ str " " ++ statusText r.statusCode
    ++ str "\r\n"
    ++ (r.serialHeaders.map headerLine).flatten
    ++ str "\r\n"
    ++ r.body

/-! ### Parser (parser.go) -/

/-- Limits (parser.go lines 9-14). -/
def maxRequestLineBytes : Nat := 4096
def maxHeadersBytes : Nat := 16 * 1024
def maxHeaderCount : Nat := 50
def maxBodyBytes : Nat := 256 * 1024

/-- The sentinel errors of parser.go lines 16-39. -/
inductive ParseError
  | emptyRequest
  | incompleteRequest
  | incompleteBody
  | malformedRequestLine
  | invalidHTTPVersion
  | invalidHeader
  | invalidContentLength
  | requestLineTooLong
  | headersTooLarge
  | tooManyHeaders
  | bodyTooLarge
deriving DecidableEq, Repr

/-- `findHeaderDelimiter` (parser.go lines 137-154): earliest of `\r\n\r\n`
(length 4) and `\n\n` (length 2); `none` plays Go's `(-1, 0)`. -/
def findHeaderDelimiter (data : Bytes) : Option (Nat × Nat) :=
  let crlf := firstOccur (str "\r\n\r\n") data
  let lf := firstOccur (str "\n\n") data
  match crlf, lf with
  | some c, some l => if c < l then some (c, 4) else some (l, 2)
  | some c, none => some (c, 4)
  | none, some l => some (l, 2)
  | none, none => none

/-- `splitLines` (parser.go lines 157-160), the `\r\n` → `\n` normalisation. -/
def replaceCRLF : Bytes → Bytes
  | '\r' :: '\n' :: rest => '\n' :: replaceCRLF rest
  | c :: rest => c :: replaceCRLF rest
  | [] => []

/-- `splitLines` (parser.go lines 157-160). -/
def splitLines (head : Bytes) : List Bytes := splitOnByte '\n' (replaceCRLF head)

/-- `parseRequestLine` (parser.go lines 163-178). -/
def parseRequestLine (line : Bytes) : Except ParseError (Bytes × Bytes × Bytes) :=
  match fields line with
  | [method, path, version] =>
    if version ≠ str "HTTP/1.1" ∧ version ≠ str "HTTP/1.0" then
      .error .invalidHTTPVersion
    else .ok (method, path, version)
  | _ => .error .malformedRequestLine

/-- The header loop of `ParseRequest` (parser.go lines 72-95), folded over the
remaining lines with the running count and map.  `strings.Index(line, ":")`
yields `colon <= 0` exactly when the colon is absent or at position 0. -/
def parseHeaderLines : List Bytes → Nat → HeaderMap → Except ParseError HeaderMap
  | [], _, acc => .ok acc
  | line :: rest, headerCount, acc =>
    if trimSpace line = [] then parseHeaderLines rest headerCount acc
    else if headerCount + 1 > maxHeaderCount then .error .tooManyHeaders
    else
      match firstOccur (str ":") line with
      | none => .error .invalidHeader
      | some colon =>
        if colon = 0 then .error .invalidHeader
        else
          let key := goToLower (trimSpace (line.take colon))
          let value := trimSpace (line.drop (colon + 1))
          if key = [] then .error .invalidHeader
          else parseHeaderLines rest (headerCount + 1) (mapSet acc key value)

/-- The `content-length` block of `ParseRequest` (parser.go lines 102-116). -/
def getContentLength (headers : HeaderMap) : Except ParseError Nat :=
  match mapGet? headers (str "content-length") with
  | none => .ok 0
  | some rawLen =>
    if rawLen = [] then .error .invalidContentLength
    else
      match goAtoi rawLen with
      | none => .error .invalidContentLength
      | some n =>
        if n < 0 then .error .invalidContentLength
        else if n > (maxBodyBytes : Int) then .error .bodyTooLarge
        else .ok n.toNat

/-- `ParseRequest` (parser.go lines 43-134).  Success carries the request and
the consumed byte count; note that the Go checks run in source order:
empty input, delimiter search and size limits, request line, headers,
body-start bound, content length, body availability. -/
def ParseRequest (data : Bytes) : Except ParseError (Request × Nat) :=
  if data = [] then .error .emptyRequest
  else
    match findHeaderDelimiter data with
    | none =>
      if data.length > maxHeadersBytes then .error .headersTooLarge
      else .error .incompleteRequest
    | some (headerEnd, delimiterLen) =>
      if headerEnd > maxHeadersBytes then .error .headersTooLarge
      else
        match splitLines (data.take headerEnd) with
        | [] => .error .malformedRequestLine
        | line0 :: restLines =>
          if trimSpace line0 = [] then .error .malformedRequestLine
          else if line0.length > maxRequestLineBytes then .error .requestLineTooLong
          else
            match parseRequestLine line0 with
            | .error e => .error e
            | .ok (method, path, version) =>
              match parseHeaderLines restLines 0 [] with
              | .error e => .error e
              | .ok headers =>
                let bodyStart := headerEnd + delimiterLen
                if bodyStart > data.length then .error .incompleteRequest
                else
                  match getContentLength headers with
                  | .error e => .error e
                  | .ok contentLength =>
                    if data.length - bodyStart < contentLength then .error .incompleteBody
                    else
                      .ok ({ method := method, path := path, version := version,
                             headers := headers,
                             body := (data.drop bodyStart).take contentLength },
                           bodyStart + contentLength)

/-! ### Router (router.go) -/

/-- `HandlerAdapter` (router.go line 10); a Go function value may also return
a nil pointer, hence `Option Response`. -/
abbrev HandlerAdapter := Request → Option Response

/-- `Router` (router.go lines 16-20): the `METHOD:PATH` → handler map.  The
mutex and the middleware chain do not bear on the routing claims. -/
structure Router where
  routes : List (Bytes × HandlerAdapter)

/-- `NewRouter` (router.go lines 23-27). -/
def NewRouter : Router := { routes := [] }

/-- `routeKey` (router.go lines 105-107). -/
def routeKey (method path : Bytes) : Bytes := goToUpper method ++ ':' :: path

/-- `Router.Register` (router.go lines 37-41). -/
def Router.Register (r : Router) (method path : Bytes) (handler : HandlerAdapter) : Router :=
  { routes := mapSet r.routes (routeKey method path) handler }

/-- Bytewise (= Go ASCII string) comparison, as `sort.Strings` orders keys. -/
def bytesLe : Bytes → Bytes → Bool
  | [], _ => true
  | _ :: _, [] => false
  | a :: as, b :: bs => if a < b then true else if b < a then false else bytesLe as bs

/-- Insert into a `bytesLe`-sorted list. -/
def insertSorted (x : Bytes) : List Bytes → List Bytes
  | [] => [x]
  | y :: ys => if bytesLe x y then x :: y :: ys else y :: insertSorted x ys

/-- Insertion sort by `bytesLe`; on duplicate-free input this is the unique
sorted arrangement, hence extensionally Go's `sort.Strings`. -/
def sortBytes : List Bytes → List Bytes
  | [] => []
  | x :: xs => insertSorted x (sortBytes xs)

/-- Drop duplicates (the Go code collects methods into a `seen` set before
sorting; which duplicate survives is irrelevant once sorted). -/
def dedupBytes : List Bytes → List Bytes
  | [] => []
  | x :: xs => if x ∈ dedupBytes xs then dedupBytes xs else x :: dedupBytes xs

/-- `Router.AllowedMethods` (router.go lines 69-90): scan keys ending in
`":" + path`, strip the suffix, drop empties, de-duplicate, sort. -/
def Router.AllowedMethods (r : Router) (path : Bytes) : List Bytes :=
  let suffix := ':' :: path
  let methods := (r.routes.map Prod.fst).filterMap fun key =>
    if hasSuffix key suffix then
      let method := trimSuffix key suffix
      if method = [] then none else some method
    else none
  sortBytes (dedupBytes methods)

/-! ### Connection engine helpers (conn.go) -/

/-- `internalServerErrorResponse` (handler_adapter_usecase.go lines 92-97). -/
def internalServerErrorResponse : Response :=
  (({ NewResponse with statusCode := 500 }).SetHeader (str "Content-Type")
    (str "text/plain")).WriteString (str "Internal Server Error")

/-- `shouldCloseConnection` (conn.go lines 164-177), on the non-nil request
the engine obtains from a successful parse (the Go nil-request branch simply
returns `true` and concerns no parsed request). -/
def shouldCloseConnection (req : Request) : Bool :=
  let connection := goToLower (trimSpace (mapGetD req.headers (str "connection")))
  if req.version = str "HTTP/1.1" then connection = str "close"
  else if req.version = str "HTTP/1.0" then ¬ connection = str "keep-alive"
  else true

/-- `decide_close` as the specification states it (§4.5.1): HTTP/1.1 closes
iff the lowercased, trimmed `Connection` value is `"close"`; HTTP/1.0 closes
unless that value is `"keep-alive"`; any other version closes. -/
def decideCloseSpec (req : Request) : Bool :=
  let v := goToLower (trimSpace (mapGetD req.headers (str "connection")))
  if req.version = str "HTTP/1.1" then v = str "close"
  else if req.version = str "HTTP/1.0" then ¬ v = str "keep-alive"
  else true

/-- `setConnectionHeader` (conn.go lines 180-189), on the non-nil response the
engine passes it. -/
def setConnectionHeader (resp : Response) (closeConn : Bool) : Response :=
  if closeConn then resp.SetHeader (str "Connection") (str "close")
  else resp.SetHeader (str "Connection") (str "keep-alive")

/-- The response the engine serialises for a routed request whose handler
returned `handlerResp` (`writeRoutedResponse`, conn.go lines 129-137): a nil
handler result becomes the 500 response, then the Connection header is
stamped from the keep-alive policy. -/
def engineResponse (req : Request) (handlerResp : Option Response) : Response :=
  let closeConn := shouldCloseConnection req
  let resp :=
    match handlerResp with
    | none =>
      (({ NewResponse with statusCode := 500 }).SetHeader (str "Content-Type")
        (str "text/plain")).WriteString (str "Internal Server Error")
    | some r => r
  setConnectionHeader resp closeConn

/-- The engine's post-parse guard `consumed > len(buffer)`
(`HandleConnWithRouterAndContext`, conn.go lines 40-49): true exactly when a
successful parse reports more consumed bytes than the buffer holds. -/
def consumedGuard (buffer : Bytes) : Bool :=
  match ParseRequest buffer with
  | .ok (_, consumed) => decide (consumed > buffer.length)
  | .error _ => false

/-! ### Logging middleware (middleware.go) -/

/-- The data of the one info line `LoggingMiddleware` emits (middleware.go
lines 33-40).  The wall-clock `duration` field is real time and is omitted
from the embedding. -/
structure LogEvent where
  msg : Bytes
  method : Bytes
  path : Bytes
  status : Int
  requestID : Bytes
  correlationID : Bytes
deriving DecidableEq, Repr

/-- `safeResponse` (middleware.go lines 149-154). -/
def safeResponse (resp : Option Response) : Response :=
  match resp with
  | some r => r
  | none => internalServerErrorResponse

/-- `safeInvoke` (middleware.go lines 140-146); `none` is a nil Go function
value. -/
def safeInvoke (next : Option HandlerAdapter) (req : Request) : Response :=
  match next with
  | none => internalServerErrorResponse
  | some f => safeResponse (f req)

/-- `requestIdentifiers` (middleware.go lines 173-178), on the non-nil
request. -/
def requestIdentifiers (req : Request) : Bytes × Bytes :=
  (trimSpace (mapGetD req.headers (str "x-request-id")),
   trimSpace (mapGetD req.headers (str "x-correlation-id")))

/-- `LoggingMiddleware` (middleware.go lines 13-44) on the non-nil request
the engine dispatches: invoke downstream through `safeInvoke`, compute the
log line, return the response.  The logger argument of the Go function only
decides whether the line is handed to the logger port; the line itself is
returned as data. -/
def LoggingMiddleware (next : Option HandlerAdapter) (req : Request) : Response × LogEvent :=
  let resp := safeInvoke next req
  let statusCode := if resp.statusCode = 0 then 200 else resp.statusCode
  let ids := requestIdentifiers req
  (resp,
   { msg := str "http request", method := req.method, path := req.path,
     status := statusCode, requestID := ids.1, correlationID := ids.2 })

/-! ### Concrete fixtures used by witnesses and counterexamples -/

/-- A pipelined request with a body: parsed with 39 consumed of 41 bytes. -/
def pipeEx : Bytes := str "POST /u HTTP/1.1\ncontent-length: 3\n\nabcde"

/-- The request `ParseRequest` extracts from `pipeEx`. -/
def pipeReq : Request :=
  { method := str "POST", path := str "/u", version := str "HTTP/1.1",
    headers := [(str "content-length", str "3")], body := str "abc" }

/-- A response whose handler already set `Content-Length: 5` over a 3-byte
body. -/
def clMismatchResp : Response :=
  { statusCode := 200, headers := [(str "Content-Length", str "5")], body := str "abc" }

/-- A response without a content-length header and CR-free headers. -/
def plainResp : Response :=
  { statusCode := 200, headers := [(str "X-K", str "y")], body := str "ok" }

/-! ## Properties of `firstOccur` (Go `strings.Index`) -/

theorem firstOccur_occurrence {pat s : Bytes} {i : Nat} (h : firstOccur pat s = some i) :
    pat <+: s.drop i := by
  induction s generalizing i with
  | nil =>
    simp only [firstOccur] at h
    split at h
    · cases h
      simpa [*]
    · cases h
  | cons c rest ih =>
    simp only [firstOccur] at h
    split at h
    next hp =>
      cases h
      simpa using List.isPrefixOf_iff_prefix.mp hp
    next hp =>
      rcases Option.map_eq_some'.mp h with ⟨a, ha, hai⟩
      subst hai
      rw [List.drop_succ_cons]
      exact ih ha

theorem firstOccur_min {pat s : Bytes} {i : Nat} (h : firstOccur pat s = some i) :
    ∀ j, j < i → ¬ pat <+: s.drop j := by
  induction s generalizing i with
  | nil =>
    simp only [firstOccur] at h
    split at h
    · cases h
      omega
    · cases h
  | cons c rest ih =>
    simp only [firstOccur] at h
    split at h
    next hp =>
      cases h
      omega
    next hp =>
      rcases Option.map_eq_some'.mp h with ⟨a, ha, hai⟩
      subst hai
      intro j hj
      cases j with
      | zero =>
        rw [List.drop_zero]
        exact fun hpre => hp (List.isPrefixOf_iff_prefix.mpr hpre)
      | succ k =>
        rw [List.drop_succ_cons]
        exact ih ha k (by omega)

theorem firstOccur_none {pat s : Bytes} (h : firstOccur pat s = none) :
    ∀ j, ¬ pat <+: s.drop j := by
  induction s with
  | nil =>
    simp only [firstOccur] at h
    intro j hpre
    rw [List.drop_nil] at hpre
    rw [List.prefix_nil.mp hpre] at h
    simp at h
  | cons c rest ih =>
    simp only [firstOccur] at h
    split at h
    next hp => cases h
    next hp =>
      intro j
      cases j with
      | zero =>
        rw [List.drop_zero]
        exact fun hpre => hp (List.isPrefixOf_iff_prefix.mpr hpre)
      | succ k =>
        rw [List.drop_succ_cons]
        exact ih (by simpa using h) k

theorem exists_firstOccur_of_occurrence {pat s : Bytes} {j : Nat} (h : pat <+: s.drop j) :
    ∃ i, i ≤ j ∧ firstOccur pat s = some i := by
  induction s generalizing j with
  | nil =>
    rw [List.drop_nil] at h
    refine ⟨0, Nat.zero_le _, ?_⟩
    rw [List.prefix_nil.mp h]
    simp [firstOccur]
  | cons c rest ih =>
    by_cases hp : pat.isPrefixOf (c :: rest)
    · exact ⟨0, Nat.zero_le _, by simp [firstOccur, hp]⟩
    · cases j with
      | zero =>
        rw [List.drop_zero] at h
        exact absurd (List.isPrefixOf_iff_prefix.mpr h) hp
      | succ k =>
        rw [List.drop_succ_cons] at h
        rcases ih h with ⟨i, hi, hio⟩
        exact ⟨i + 1, by omega, by simp [firstOccur, hp, hio]⟩

theorem prefix_drop_of_take {pat s : Bytes} {m j : Nat} (h : pat <+: (s.take m).drop j) :
    pat <+: s.drop j := by
  rw [List.drop_take] at h
  exact h.trans (List.take_prefix _ _)

theorem prefix_take_drop {pat s : Bytes} {m j : Nat} (h : pat <+: s.drop j)
    (hm : j + pat.length ≤ m) : pat <+: (s.take m).drop j := by
  rw [List.drop_take]
  exact List.prefix_take_iff.mpr ⟨h, by omega⟩

theorem firstOccur_take_of_fits {pat s : Bytes} {i m : Nat}
    (h : firstOccur pat s = some i) (hm : i + pat.length ≤ m) :
    firstOccur pat (s.take m) = some i := by
  have hocc : pat <+: (s.take m).drop i := prefix_take_drop (firstOccur_occurrence h) hm
  rcases exists_firstOccur_of_occurrence hocc with ⟨i', hi', ho⟩
  rcases Nat.lt_or_ge i' i with hlt | hge
  · exact absurd (prefix_drop_of_take (firstOccur_occurrence ho)) (firstOccur_min h i' hlt)
  · have : i' = i := le_antisymm hi' hge
    rw [this] at ho
    exact ho

theorem firstOccur_take_none {pat s : Bytes} {m : Nat} (h : firstOccur pat s = none) :
    firstOccur pat (s.take m) = none := by
  cases ho : firstOccur pat (s.take m) with
  | none => rfl
  | some j => exact absurd (prefix_drop_of_take (firstOccur_occurrence ho)) (firstOccur_none h j)

theorem firstOccur_of_take {pat s : Bytes} {m j : Nat}
    (h : firstOccur pat (s.take m) = some j) :
    ∃ i, i ≤ j ∧ firstOccur pat s = some i :=
  exists_firstOccur_of_occurrence (prefix_drop_of_take (firstOccur_occurrence h))

theorem firstOccur_append_shift {p0 : Char} {pp l s : Bytes}
    (hl : ∀ c ∈ l, c ≠ p0) :
    firstOccur (p0 :: pp) (l ++ s) = (firstOccur (p0 :: pp) s).map (· + l.length) := by
  induction l with
  | nil => simp
  | cons c cs ih =>
    have hc : c ≠ p0 := hl c (by simp)
    have hnp : ¬ (p0 :: pp).isPrefixOf (c :: (cs ++ s)) := by
      intro hp
      rcases List.isPrefixOf_iff_prefix.mp hp with ⟨t, ht⟩
      simp only [List.cons_append] at ht
      exact hc (by injection ht with h1 _; exact h1.symm)
    rw [List.cons_append]
    simp only [firstOccur, hnp, if_neg, if_false]
    rw [ih (fun c' hc' => hl c' (by simp [hc']))]
    cases firstOccur (p0 :: pp) s <;> simp
    omega

/-! ## Properties of `findHeaderDelimiter` -/

theorem findHeaderDelimiter_take {data : Bytes} {e d m : Nat}
    (h : findHeaderDelimiter data = some (e, d)) (hm : e + d ≤ m) :
    findHeaderDelimiter (data.take m) = some (e, d) := by
  simp only [findHeaderDelimiter] at h ⊢
  split at h
  next c l hcrlf hlf =>
    split at h
    next hcl =>
      simp only [Option.some.injEq, Prod.mk.injEq] at h
      obtain ⟨he, hd⟩ := h
      subst he; subst hd
      rw [firstOccur_take_of_fits hcrlf (by simpa using hm)]
      cases hlf' : firstOccur (str "\n\n") (data.take m) with
      | none => rfl
      | some l' =>
        rcases firstOccur_of_take hlf' with ⟨l0, hl0, hl0eq⟩
        rw [hlf] at hl0eq
        injection hl0eq with hl0l
        show (if c < l' then some (c, 4) else some (l', 2)) = some (c, 4)
        rw [if_pos (by omega)]
    next hcl =>
      simp only [Option.some.injEq, Prod.mk.injEq] at h
      obtain ⟨he, hd⟩ := h
      subst he; subst hd
      rw [firstOccur_take_of_fits hlf (by simpa using hm)]
      cases hcrlf' : firstOccur (str "\r\n\r\n") (data.take m) with
      | none => rfl
      | some c' =>
        rcases firstOccur_of_take hcrlf' with ⟨c0, hc0, hc0eq⟩
        rw [hcrlf] at hc0eq
        injection hc0eq with hc0c
        show (if c' < l then some (c', 4) else some (l, 2)) = some (l, 2)
        rw [if_neg (by omega)]
  next c hcrlf hlf =>
    simp only [Option.some.injEq, Prod.mk.injEq] at h
    obtain ⟨he, hd⟩ := h
    subst he; subst hd
    rw [firstOccur_take_none hlf, firstOccur_take_of_fits hcrlf (by simpa using hm)]
  next l hcrlf hlf =>
    simp only [Option.some.injEq, Prod.mk.injEq] at h
    obtain ⟨he, hd⟩ := h
    subst he; subst hd
    rw [firstOccur_take_none hcrlf, firstOccur_take_of_fits hlf (by simpa using hm)]
  next hcrlf hlf =>
    cases h

theorem findHeaderDelimiter_le {data : Bytes} {e d : Nat}
    (h : findHeaderDelimiter data = some (e, d)) :
    (∀ j, (str "\r\n\r\n") <+: data.drop j → e ≤ j) ∧
    (∀ j, (str "\n\n") <+: data.drop j → e ≤ j) ∧
    ((d = 4 ∧ (str "\r\n\r\n") <+: data.drop e) ∨
     (d = 2 ∧ (str "\n\n") <+: data.drop e)) := by
  simp only [findHeaderDelimiter] at h
  split at h
  next c l hcrlf hlf =>
    have hcpre := firstOccur_occurrence hcrlf
    have hlpre := firstOccur_occurrence hlf
    split at h
    next hcl =>
      simp only [Option.some.injEq, Prod.mk.injEq] at h
      obtain ⟨he, hd⟩ := h
      subst he; subst hd
      refine ⟨fun j hj => ?_, fun j hj => ?_, Or.inl ⟨rfl, hcpre⟩⟩
      · rcases exists_firstOccur_of_occurrence hj with ⟨i, hij, hieq⟩
        rw [hcrlf] at hieq
        injection hieq with hie
        omega
      · rcases exists_firstOccur_of_occurrence hj with ⟨i, hij, hieq⟩
        rw [hlf] at hieq
        injection hieq with hie
        omega
    next hcl =>
      simp only [Option.some.injEq, Prod.mk.injEq] at h
      obtain ⟨he, hd⟩ := h
      subst he; subst hd
      refine ⟨fun j hj => ?_, fun j hj => ?_, Or.inr ⟨rfl, hlpre⟩⟩
      · rcases exists_firstOccur_of_occurrence hj with ⟨i, hij, hieq⟩
        rw [hcrlf] at hieq
        injection hieq with hie
        omega
      · rcases exists_firstOccur_of_occurrence hj with ⟨i, hij, hieq⟩
        rw [hlf] at hieq
        injection hieq with hie
        omega
  next c hcrlf hlf =>
    simp only [Option.some.injEq, Prod.mk.injEq] at h
    obtain ⟨he, hd⟩ := h
    subst he; subst hd
    refine ⟨fun j hj => ?_, fun j hj => absurd hj (firstOccur_none hlf j),
      Or.inl ⟨rfl, firstOccur_occurrence hcrlf⟩⟩
    rcases exists_firstOccur_of_occurrence hj with ⟨i, hij, hieq⟩
    rw [hcrlf] at hieq
    injection hieq with hie
    omega
  next l hcrlf hlf =>
    simp only [Option.some.injEq, Prod.mk.injEq] at h
    obtain ⟨he, hd⟩ := h
    subst he; subst hd
    refine ⟨fun j hj => absurd hj (firstOccur_none hcrlf j), fun j hj => ?_,
      Or.inr ⟨rfl, firstOccur_occurrence hlf⟩⟩
    rcases exists_firstOccur_of_occurrence hj with ⟨i, hij, hieq⟩
    rw [hlf] at hieq
    injection hieq with hie
    omega
  next hcrlf hlf =>
    cases h

theorem findHeaderDelimiter_take_lt {data : Bytes} {e d m : Nat}
    (h : findHeaderDelimiter data = some (e, d)) (hm : m < e + d) :
    findHeaderDelimiter (data.take m) = none := by
  obtain ⟨hcr, hlf, hshape⟩ := findHeaderDelimiter_le h
  cases ho : findHeaderDelimiter (data.take m) with
  | none => rfl
  | some pr =>
    obtain ⟨e', d'⟩ := pr
    exfalso
    obtain ⟨hcr', hlf', hshape'⟩ := findHeaderDelimiter_le ho
    have hdlen : d = 4 ∨ d = 2 := by rcases hshape with ⟨h4, _⟩ | ⟨h2, _⟩ <;> [exact Or.inl h4; exact Or.inr h2]
    rcases hshape' with ⟨hd4, hocc'⟩ | ⟨hd2, hocc'⟩
    · -- a `\r\n\r\n` occurrence inside the truncation: too long to fit
      have hlen : (str "\r\n\r\n").length ≤ ((data.take m).drop e').length := hocc'.length_le
      simp only [List.length_drop, List.length_take] at hlen
      have he' : e ≤ e' := hcr e' (prefix_drop_of_take hocc')
      have : (str "\r\n\r\n").length = 4 := rfl
      omega
    · have hlen : (str "\n\n").length ≤ ((data.take m).drop e').length := hocc'.length_le
      simp only [List.length_drop, List.length_take] at hlen
      have he' : e ≤ e' := hlf e' (prefix_drop_of_take hocc')
      have hlf2 : (str "\n\n").length = 2 := rfl
      rcases hdlen with hd | hd
      · -- `d = 4`: the truncation cuts inside `\r\n\r\n`, where `\n\n` is absent
        rcases hshape with ⟨_, hcpre⟩ | ⟨hdd, _⟩
        · rcases hcpre with ⟨t, ht⟩
          have ht4 : '\r' :: '\n' :: '\r' :: '\n' :: t = data.drop e := ht
          have hocc'' : (str "\n\n") <+: data.drop e' := prefix_drop_of_take hocc'
          have he'cases : e' = e ∨ e' = e + 1 := by omega
          rcases he'cases with rfl | rfl
          · rcases hocc'' with ⟨t', ht'⟩
            rw [← ht4] at ht'
            have ht2 : '\n' :: '\n' :: t' = '\r' :: '\n' :: '\r' :: '\n' :: t := ht'
            injection ht2 with h1 _
            exact absurd h1 (by decide)
          · rcases hocc'' with ⟨t', ht'⟩
            have hdd : data.drop (e + 1) = '\n' :: '\r' :: '\n' :: t := by
              have := List.drop_drop 1 e data
              rw [← this, ← ht4]
              rfl
            rw [hdd] at ht'
            have ht2 : '\n' :: '\n' :: t' = '\n' :: '\r' :: '\n' :: t := ht'
            injection ht2 with _ h2
            injection h2 with h2a _
            exact absurd h2a (by decide)
        · omega
      · omega

/-! ## Inversion and introduction for successful parses -/

theorem findHeaderDelimiter_nil : findHeaderDelimiter ([] : Bytes) = none := rfl

theorem ParseRequest_ok_inv {data : Bytes} {req : Request} {n : Nat}
    (h : ParseRequest data = .ok (req, n)) :
    ∃ e d line0 restLines mth pth ver hs cl,
      findHeaderDelimiter data = some (e, d) ∧
      e ≤ maxHeadersBytes ∧
      splitLines (data.take e) = line0 :: restLines ∧
      trimSpace line0 ≠ [] ∧
      line0.length ≤ maxRequestLineBytes ∧
      parseRequestLine line0 = .ok (mth, pth, ver) ∧
      parseHeaderLines restLines 0 [] = .ok hs ∧
      e + d ≤ data.length ∧
      getContentLength hs = .ok cl ∧
      cl ≤ data.length - (e + d) ∧
      req = { method := mth, path := pth, version := ver, headers := hs,
              body := (data.drop (e + d)).take cl } ∧
      n = e + d + cl := by
  simp only [ParseRequest] at h
  split at h
  · cases h
  split at h
  · split at h <;> cases h
  rename_i e d heq
  split at h
  · cases h
  rename_i he
  split at h
  · cases h
  rename_i line0 restLines hsplit
  split at h
  · cases h
  rename_i hblank
  split at h
  · cases h
  rename_i hlen
  split at h
  · cases h
  rename_i mth pth ver hline
  split at h
  · cases h
  rename_i hs hheaders
  split at h
  · cases h
  rename_i hbody
  split at h
  · cases h
  rename_i cl hcl
  split at h
  · cases h
  rename_i havail
  simp only [Except.ok.injEq, Prod.mk.injEq] at h
  obtain ⟨hreq, hn⟩ := h
  refine ⟨e, d, line0, restLines, mth, pth, ver, hs, cl, heq, by omega, hsplit,
    hblank, by omega, hline, hheaders, by omega, hcl, by omega, ?_, ?_⟩
  · first
    | exact hreq.symm
    | exact hreq
  · first
    | exact hn.symm
    | exact hn

theorem ParseRequest_ok_intro {data : Bytes} {e d : Nat} {line0 : Bytes}
    {restLines : List Bytes} {mth pth ver : Bytes} {hs : HeaderMap} {cl : Nat}
    (h1 : findHeaderDelimiter data = some (e, d))
    (h2 : e ≤ maxHeadersBytes)
    (h3 : splitLines (data.take e) = line0 :: restLines)
    (h4 : trimSpace line0 ≠ [])
    (h5 : line0.length ≤ maxRequestLineBytes)
    (h6 : parseRequestLine line0 = .ok (mth, pth, ver))
    (h7 : parseHeaderLines restLines 0 [] = .ok hs)
    (h8 : e + d ≤ data.length)
    (h9 : getContentLength hs = .ok cl)
    (h10 : cl ≤ data.length - (e + d)) :
    ParseRequest data =
      .ok ({ method := mth, path := pth, version := ver, headers := hs,
             body := (data.drop (e + d)).take cl },
           e + d + cl) := by
  have hne : data ≠ [] := by
    intro hd
    rw [hd, findHeaderDelimiter_nil] at h1
    cases h1
  simp only [ParseRequest]
  rw [if_neg hne, h1]
  dsimp only
  rw [if_neg (by omega : ¬ e > maxHeadersBytes), h3]
  dsimp only
  rw [if_neg h4, if_neg (by omega : ¬ line0.length > maxRequestLineBytes), h6]
  dsimp only
  rw [h7]
  dsimp only
  rw [if_neg (by omega : ¬ e + d > data.length), h9]
  dsimp only
  rw [if_neg (by omega : ¬ data.length - (e + d) < cl)]

theorem ParseRequest_body_stage {data : Bytes} {e d : Nat} {line0 : Bytes}
    {restLines : List Bytes} {mth pth ver : Bytes} {hs : HeaderMap}
    (h1 : findHeaderDelimiter data = some (e, d))
    (h2 : e ≤ maxHeadersBytes)
    (h3 : splitLines (data.take e) = line0 :: restLines)
    (h4 : trimSpace line0 ≠ [])
    (h5 : line0.length ≤ maxRequestLineBytes)
    (h6 : parseRequestLine line0 = .ok (mth, pth, ver))
    (h7 : parseHeaderLines restLines 0 [] = .ok hs)
    (h8 : e + d ≤ data.length) :
    ParseRequest data =
      match getContentLength hs with
      | .error err => .error err
      | .ok contentLength =>
        if data.length - (e + d) < contentLength then .error .incompleteBody
        else
          .ok ({ method := mth, path := pth, version := ver, headers := hs,
                 body := (data.drop (e + d)).take contentLength },
               e + d + contentLength) := by
  have hne : data ≠ [] := by
    intro hd
    rw [hd, findHeaderDelimiter_nil] at h1
    cases h1
  simp only [ParseRequest]
  rw [if_neg hne, h1]
  dsimp only
  rw [if_neg (by omega : ¬ e > maxHeadersBytes), h3]
  dsimp only
  rw [if_neg h4, if_neg (by omega : ¬ line0.length > maxRequestLineBytes), h6]
  dsimp only
  rw [h7]
  dsimp only
  rw [if_neg (by omega : ¬ e + d > data.length)]

/-! ## Claim theorems: the parser (C1, C9) -/

/-- C1: for any input `B` on which `ParseRequest` returns `Parsed(req, n)`,
re-running the parser on the prefix `B[..n]` again returns `Parsed` (with the
same request and count), and running it on `B[..n-1]` returns one of the
error outcomes (all of which are `Incomplete` or `Malformed` kinds), never
`Parsed`. -/
theorem parse_prefix_roundtrip {data : Bytes} {req : Request} {n : Nat}
    (h : ParseRequest data = .ok (req, n)) :
    ParseRequest (data.take n) = .ok (req, n) ∧
    ∃ err, ParseRequest (data.take (n - 1)) = .error err := by
  rcases ParseRequest_ok_inv h with
    ⟨e, d, line0, restLines, mth, pth, ver, hs, cl, hfd, hemax, hsplit, hblank, hllen,
     hline, hhdrs, hbound, hgcl, havail, hreq, hn⟩
  have hd24 : d = 4 ∨ d = 2 := by
    rcases (findHeaderDelimiter_le hfd).2.2 with ⟨h4, _⟩ | ⟨h2, _⟩
    · exact Or.inl h4
    · exact Or.inr h2
  subst hn
  constructor
  · have hfd' : findHeaderDelimiter (data.take (e + d + cl)) = some (e, d) :=
      findHeaderDelimiter_take hfd (by omega)
    have htake : (data.take (e + d + cl)).take e = data.take e := by
      rw [List.take_take]
      congr 1
      omega
    have hlen' : (data.take (e + d + cl)).length = e + d + cl := by
      rw [List.length_take]
      omega
    have hok := ParseRequest_ok_intro hfd' hemax (by rw [htake]; exact hsplit) hblank
      hllen hline hhdrs (by rw [hlen']; omega) hgcl (by rw [hlen']; omega)
    have hbody : ((data.take (e + d + cl)).drop (e + d)).take cl
        = (data.drop (e + d)).take cl := by
      rw [List.drop_take, show e + d + cl - (e + d) = cl by omega, List.take_take, min_self]
    rw [hbody] at hok
    rw [← hreq] at hok
    exact hok
  · by_cases hcl0 : cl = 0
    · subst hcl0
      have hnone : findHeaderDelimiter (data.take (e + d + 0 - 1)) = none :=
        findHeaderDelimiter_take_lt hfd (by omega)
      have hlen' : (data.take (e + d + 0 - 1)).length = e + d - 1 := by
        rw [List.length_take]
        omega
      have hne' : data.take (e + d + 0 - 1) ≠ [] := by
        intro hcon
        rw [hcon] at hlen'
        simp at hlen'
        omega
      refine ⟨if (data.take (e + d + 0 - 1)).length > maxHeadersBytes then .headersTooLarge
        else .incompleteRequest, ?_⟩
      simp only [ParseRequest]
      rw [if_neg hne', hnone]
      dsimp only
      split <;> rfl
    · have hfd' : findHeaderDelimiter (data.take (e + d + cl - 1)) = some (e, d) :=
        findHeaderDelimiter_take hfd (by omega)
      have htake : (data.take (e + d + cl - 1)).take e = data.take e := by
        rw [List.take_take]
        congr 1
        omega
      have hlen' : (data.take (e + d + cl - 1)).length = e + d + cl - 1 := by
        rw [List.length_take]
        omega
      have hst := ParseRequest_body_stage hfd' hemax (by rw [htake]; exact hsplit) hblank
        hllen hline hhdrs (by rw [hlen']; omega)
      refine ⟨.incompleteBody, ?_⟩
      rw [hst, hgcl]
      dsimp only
      rw [if_pos (by rw [hlen']; omega)]

/-- Witness for C1 at a concrete pipelined input. -/
theorem parse_prefix_roundtrip_witness :
    ParseRequest (pipeEx.take 39) = .ok (pipeReq, 39) ∧
    ∃ err, ParseRequest (pipeEx.take (39 - 1)) = .error err :=
  parse_prefix_roundtrip (by rfl)

/-- C9: a successful parse consumes at least one byte and never more than the
buffer holds; hence the engine's slice `buffer[consumed:]` is in bounds and
its guard branch `consumed > len(buffer)` (conn.go line 47) never fires. -/
theorem parse_consumed_in_bounds {data : Bytes} {req : Request} {n : Nat}
    (h : ParseRequest data = .ok (req, n)) :
    0 < n ∧ n ≤ data.length ∧ consumedGuard data = false := by
  rcases ParseRequest_ok_inv h with
    ⟨e, d, _, _, _, _, _, _, cl, hfd, _, _, _, _, _, _, hbound, _, havail, _, hn⟩
  have hd24 : d = 4 ∨ d = 2 := by
    rcases (findHeaderDelimiter_le hfd).2.2 with ⟨h4, _⟩ | ⟨h2, _⟩
    · exact Or.inl h4
    · exact Or.inr h2
  refine ⟨by omega, by omega, ?_⟩
  unfold consumedGuard
  rw [h]
  simp only [decide_eq_false_iff_not]
  omega

/-- Witness for C9 at a concrete input. -/
theorem parse_consumed_in_bounds_witness :
    0 < 39 ∧ 39 ≤ pipeEx.length ∧ consumedGuard pipeEx = false :=
  parse_consumed_in_bounds (by rfl)

/-! ## Error kinds of the parser stages -/

theorem parseRequestLine_error_kinds {line : Bytes} {err : ParseError}
    (h : parseRequestLine line = .error err) :
    err = .malformedRequestLine ∨ err = .invalidHTTPVersion := by
  unfold parseRequestLine at h
  split at h
  · split at h
    · injection h with h'
      exact Or.inr h'.symm
    · cases h
  · injection h with h'
    exact Or.inl h'.symm

theorem parseHeaderLines_error_kinds :
    ∀ (lines : List Bytes) (count : Nat) (acc : HeaderMap) {err : ParseError},
      parseHeaderLines lines count acc = .error err →
      err = .invalidHeader ∨ err = .tooManyHeaders := by
  intro lines
  induction lines with
  | nil =>
    intro count acc err h
    cases h
  | cons line rest ih =>
    intro count acc err h
    simp only [parseHeaderLines] at h
    split at h
    · exact ih _ _ h
    · split at h
      · injection h with h'
        exact Or.inr h'.symm
      · split at h
        · injection h with h'
          exact Or.inl h'.symm
        · split at h
          · injection h with h'
            exact Or.inl h'.symm
          · split at h
            · injection h with h'
              exact Or.inl h'.symm
            · exact ih _ _ h

theorem getContentLength_error_kinds {hs : HeaderMap} {err : ParseError}
    (h : getContentLength hs = .error err) :
    err = .invalidContentLength ∨ err = .bodyTooLarge := by
  unfold getContentLength at h
  split at h
  · cases h
  · split at h
    · injection h with h'
      exact Or.inl h'.symm
    · split at h
      · injection h with h'
        exact Or.inl h'.symm
      · split at h
        · injection h with h'
          exact Or.inl h'.symm
        · split at h
          · injection h with h'
            exact Or.inr h'.symm
          · cases h

theorem not_isPrefixOf_cons_of_head_ne {p0 : Char} {pp : Bytes} {c : Char}
    (hne : p0 ≠ c) (t : Bytes) :
    ¬ ((p0 :: pp).isPrefixOf (c :: t) = true) := by
  intro hcon
  rcases List.isPrefixOf_iff_prefix.mp hcon with ⟨t2, ht2⟩
  rw [List.cons_append] at ht2
  injection ht2 with h1 _
  exact hne h1

theorem firstOccur_replicate_none (pat : Bytes) (c : Char) (k : Nat)
    (h : ∀ t, ¬ (pat.isPrefixOf (c :: t) = true)) :
    firstOccur pat (List.replicate k c) = none := by
  induction k with
  | zero =>
    have hne : pat ≠ [] := by
      intro hp
      exact h [] (by rw [hp]; rfl)
    simp [firstOccur, hne]
  | succ n ih =>
    rw [List.replicate_succ]
    simp only [firstOccur]
    rw [if_neg (h _), ih]
    rfl

theorem firstOccur_replicate_append {pat : Bytes} {c : Char} {s : Bytes} (k : Nat)
    (h : ∀ t, ¬ (pat.isPrefixOf (c :: t) = true)) :
    firstOccur pat (List.replicate k c ++ s) = (firstOccur pat s).map (· + k) := by
  induction k with
  | zero =>
    rw [List.replicate_zero, List.nil_append]
    cases firstOccur pat s <;> simp
  | succ n ih =>
    rw [List.replicate_succ, List.cons_append]
    simp only [firstOccur]
    rw [if_neg (h _), ih]
    cases firstOccur pat s <;> simp
    omega

theorem fhd_none_of {data : Bytes}
    (h1 : firstOccur (str "\r\n\r\n") data = none)
    (h2 : firstOccur (str "\n\n") data = none) :
    findHeaderDelimiter data = none := by
  simp only [findHeaderDelimiter]
  rw [h1, h2]

theorem fhd_lf_of {data : Bytes} {l : Nat}
    (h1 : firstOccur (str "\r\n\r\n") data = none)
    (h2 : firstOccur (str "\n\n") data = some l) :
    findHeaderDelimiter data = some (l, 2) := by
  simp only [findHeaderDelimiter]
  rw [h1, h2]

/-! ## Claim theorems: header-size limits (C2) -/

/-- C2 counterexample: the empty input contains neither delimiter and its
length is at most 16,384, yet `ParseRequest` returns the distinct
empty-request outcome, not `Incomplete(Request)` as the claim states. -/
theorem parse_empty_not_incomplete :
    firstOccur (str "\r\n\r\n") ([] : Bytes) = none ∧
    firstOccur (str "\n\n") ([] : Bytes) = none ∧
    ([] : Bytes).length ≤ maxHeadersBytes ∧
    ParseRequest [] = .error .emptyRequest ∧
    ParseError.emptyRequest ≠ ParseError.incompleteRequest :=
  ⟨rfl, rfl, by decide, rfl, by decide⟩

/-- C2 (amended): for a nonempty input in which neither delimiter occurs,
the parser answers `HeadersTooLarge` when the input length exceeds 16,384
bytes and `Incomplete(Request)` otherwise (the empty input instead yields
the distinct `Malformed(Empty)` outcome); when a delimiter is found, a
terminator position above 16,384 yields `HeadersTooLarge`, while a position
of at most 16,384 — in particular exactly 16,384 — is accepted and parsing
proceeds: the result is never `HeadersTooLarge`. -/
theorem parse_header_size_limits (B : Bytes) :
    (findHeaderDelimiter B = none → B ≠ [] →
      ParseRequest B =
        .error (if B.length > maxHeadersBytes then .headersTooLarge
                else .incompleteRequest)) ∧
    (∀ e d, findHeaderDelimiter B = some (e, d) →
      (e > maxHeadersBytes → ParseRequest B = .error .headersTooLarge) ∧
      (e ≤ maxHeadersBytes → ParseRequest B ≠ .error .headersTooLarge)) := by
  constructor
  · intro hnone hne
    simp only [ParseRequest]
    rw [if_neg hne, hnone]
    dsimp only
    split <;> rfl
  · intro e d hsome
    have hne : B ≠ [] := by
      intro hd
      rw [hd, findHeaderDelimiter_nil] at hsome
      cases hsome
    constructor
    · intro hbig
      simp only [ParseRequest]
      rw [if_neg hne, hsome]
      dsimp only
      rw [if_pos hbig]
    · intro hle hcon
      simp only [ParseRequest] at hcon
      rw [if_neg hne, hsome] at hcon
      dsimp only at hcon
      rw [if_neg (by omega : ¬ e > maxHeadersBytes)] at hcon
      split at hcon
      · injection hcon with h'
        cases h'
      · split at hcon
        · injection hcon with h'
          cases h'
        · split at hcon
          · injection hcon with h'
            cases h'
          · split at hcon
            · rename_i err' heq
              injection hcon with h'
              rcases parseRequestLine_error_kinds heq with h2 | h2 <;> rw [h2] at h' <;> cases h'
            · split at hcon
              · rename_i err' heq
                injection hcon with h'
                rcases parseHeaderLines_error_kinds _ _ _ heq with h2 | h2 <;> rw [h2] at h' <;> cases h'
              · split at hcon
                · injection hcon with h'
                  cases h'
                · split at hcon
                  · rename_i err' heq
                    injection hcon with h'
                    rcases getContentLength_error_kinds heq with h2 | h2 <;> rw [h2] at h' <;> cases h'
                  · split at hcon
                    · injection hcon with h'
                      cases h'
                    · cases hcon

/-- Witness for C2 at four concrete inputs: an oversized delimiter-free
input, a short delimiter-free input, a terminator at position 16,385, and a
terminator at position exactly 16,384. -/
theorem parse_header_size_limits_witness :
    ParseRequest (List.replicate 16385 'a') = .error .headersTooLarge ∧
    ParseRequest (str "GET") = .error .incompleteRequest ∧
    ParseRequest (List.replicate 16385 'a' ++ str "\n\n") = .error .headersTooLarge ∧
    ParseRequest (List.replicate 16384 'a' ++ str "\n\n") ≠ .error .headersTooLarge := by
  have hcrA : ∀ t, ¬ ((str "\r\n\r\n").isPrefixOf ('a' :: t) = true) := fun t => by
    rw [show str "\r\n\r\n" = '\r' :: str "\n\r\n" from rfl]
    exact not_isPrefixOf_cons_of_head_ne (by decide) t
  have hlfA : ∀ t, ¬ ((str "\n\n").isPrefixOf ('a' :: t) = true) := fun t => by
    rw [show str "\n\n" = '\n' :: str "\n" from rfl]
    exact not_isPrefixOf_cons_of_head_ne (by decide) t
  have hnone1 : findHeaderDelimiter (List.replicate 16385 'a') = none :=
    fhd_none_of (firstOccur_replicate_none _ _ 16385 hcrA)
      (firstOccur_replicate_none _ _ 16385 hlfA)
  have hcr3 : ∀ k : Nat, firstOccur (str "\r\n\r\n") (List.replicate k 'a' ++ str "\n\n") = none := by
    intro k
    rw [firstOccur_replicate_append k hcrA,
      show firstOccur (str "\r\n\r\n") (str "\n\n") = none from rfl]
    rfl
  have hlf3 : ∀ k : Nat, firstOccur (str "\n\n") (List.replicate k 'a' ++ str "\n\n") = some k := by
    intro k
    rw [firstOccur_replicate_append k hlfA,
      show firstOccur (str "\n\n") (str "\n\n") = some 0 from rfl]
    simp
  have hsome1 : findHeaderDelimiter (List.replicate 16385 'a' ++ str "\n\n") = some (16385, 2) :=
    fhd_lf_of (hcr3 16385) (hlf3 16385)
  have hsome2 : findHeaderDelimiter (List.replicate 16384 'a' ++ str "\n\n") = some (16384, 2) :=
    fhd_lf_of (hcr3 16384) (hlf3 16384)
  refine ⟨?_, ?_, ?_, ?_⟩
  · have hne : List.replicate 16385 'a' ≠ ([] : Bytes) := by
      intro hh
      have h2 := congrArg List.length hh
      rw [List.length_replicate, List.length_nil] at h2
      exact absurd h2 (by norm_num)
    have h := (parse_header_size_limits (List.replicate 16385 'a')).1 hnone1 hne
    rw [h, if_pos (by rw [List.length_replicate]; norm_num [maxHeadersBytes])]
  · have h := (parse_header_size_limits (str "GET")).1 (by rfl) (by decide)
    rw [h, if_neg (by decide)]
  · exact ((parse_header_size_limits _).2 16385 2 hsome1).1 (by norm_num [maxHeadersBytes])
  · exact ((parse_header_size_limits _).2 16384 2 hsome2).2 (by norm_num [maxHeadersBytes])

/-! ## Claim theorems: content-length handling (C3) -/

/-- C3 (amended): for an input whose parsed headers carry `content-length`
with raw value `v`: an empty value yields `Malformed(ContentLength)`; a value
rejected by `strconv.Atoi` — non-decimal, or outside the signed 64-bit range
— yields `Malformed(ContentLength)`; a negative value yields
`Malformed(ContentLength)`; a value above 262,144 (that `Atoi` accepted)
yields `Malformed(BodyTooLarge)` while 262,144 itself is accepted; with fewer
than the declared body bytes after the terminator the result is
`Incomplete(Body)`; with enough bytes the parser returns `Parsed` with a body
of exactly the declared length and consumed count `body_start + expected`. -/
theorem parse_content_length_rules {data : Bytes} {e d : Nat} {line0 : Bytes}
    {restLines : List Bytes} {mth pth ver : Bytes} {hs : HeaderMap} {v : Bytes}
    (h1 : findHeaderDelimiter data = some (e, d))
    (h2 : e ≤ maxHeadersBytes)
    (h3 : splitLines (data.take e) = line0 :: restLines)
    (h4 : trimSpace line0 ≠ [])
    (h5 : line0.length ≤ maxRequestLineBytes)
    (h6 : parseRequestLine line0 = .ok (mth, pth, ver))
    (h7 : parseHeaderLines restLines 0 [] = .ok hs)
    (h8 : e + d ≤ data.length)
    (hv : mapGet? hs (str "content-length") = some v) :
    (v = [] → ParseRequest data = .error .invalidContentLength) ∧
    (goAtoi v = none → ParseRequest data = .error .invalidContentLength) ∧
    (∀ i : Int, goAtoi v = some i → i < 0 →
      ParseRequest data = .error .invalidContentLength) ∧
    (∀ i : Int, goAtoi v = some i → 0 ≤ i → (maxBodyBytes : Int) < i →
      ParseRequest data = .error .bodyTooLarge) ∧
    (∀ i : Int, goAtoi v = some i → 0 ≤ i → i ≤ (maxBodyBytes : Int) →
      data.length - (e + d) < i.toNat → ParseRequest data = .error .incompleteBody) ∧
    (∀ i : Int, goAtoi v = some i → 0 ≤ i → i ≤ (maxBodyBytes : Int) →
      i.toNat ≤ data.length - (e + d) →
      ParseRequest data =
        .ok ({ method := mth, path := pth, version := ver, headers := hs,
               body := (data.drop (e + d)).take i.toNat },
             e + d + i.toNat) ∧
      ((data.drop (e + d)).take i.toNat).length = i.toNat) := by
  have hstage := ParseRequest_body_stage h1 h2 h3 h4 h5 h6 h7 h8
  refine ⟨?_, ?_, ?_, ?_, ?_, ?_⟩
  · intro hemp
    have hgcl : getContentLength hs = .error .invalidContentLength := by
      unfold getContentLength
      rw [hv]
      dsimp only
      rw [if_pos hemp]
    rw [hstage, hgcl]
  · intro hnone
    have hgcl : getContentLength hs = .error .invalidContentLength := by
      unfold getContentLength
      rw [hv]
      dsimp only
      by_cases hemp : v = []
      · rw [if_pos hemp]
      · rw [if_neg hemp, hnone]
    rw [hstage, hgcl]
  · intro i hi hneg
    have hvne : v ≠ [] := by
      intro hemp
      rw [hemp, show goAtoi ([] : Bytes) = none from rfl] at hi
      cases hi
    have hgcl : getContentLength hs = .error .invalidContentLength := by
      unfold getContentLength
      rw [hv]
      dsimp only
      rw [if_neg hvne, hi]
      dsimp only
      rw [if_pos hneg]
    rw [hstage, hgcl]
  · intro i hi hnn hbig
    have hvne : v ≠ [] := by
      intro hemp
      rw [hemp, show goAtoi ([] : Bytes) = none from rfl] at hi
      cases hi
    have hgcl : getContentLength hs = .error .bodyTooLarge := by
      unfold getContentLength
      rw [hv]
      dsimp only
      rw [if_neg hvne, hi]
      dsimp only
      rw [if_neg (not_lt.mpr hnn), if_pos hbig]
    rw [hstage, hgcl]
  · intro i hi hnn hle hlt
    have hvne : v ≠ [] := by
      intro hemp
      rw [hemp, show goAtoi ([] : Bytes) = none from rfl] at hi
      cases hi
    have hgcl : getContentLength hs = .ok i.toNat := by
      unfold getContentLength
      rw [hv]
      dsimp only
      rw [if_neg hvne, hi]
      dsimp only
      rw [if_neg (not_lt.mpr hnn), if_neg (not_lt.mpr hle)]
    rw [hstage, hgcl]
    dsimp only
    rw [if_pos hlt]
  · intro i hi hnn hle hge
    have hvne : v ≠ [] := by
      intro hemp
      rw [hemp, show goAtoi ([] : Bytes) = none from rfl] at hi
      cases hi
    have hgcl : getContentLength hs = .ok i.toNat := by
      unfold getContentLength
      rw [hv]
      dsimp only
      rw [if_neg hvne, hi]
      dsimp only
      rw [if_neg (not_lt.mpr hnn), if_neg (not_lt.mpr hle)]
    constructor
    · rw [hstage, hgcl]
      dsimp only
      rw [if_neg (by omega : ¬ data.length - (e + d) < i.toNat)]
    · rw [List.length_take, List.length_drop]
      omega

/-- C3 counterexample: `content-length: 9223372036854775808` (the decimal
value 2^63) is greater than 262,144, yet the parser answers
`Malformed(ContentLength)` — Go's `strconv.Atoi` fails with a range error
whose non-nil error the code maps to `ErrInvalidContentLength` — and not
`Malformed(BodyTooLarge)` as the claim requires for every value above the
limit. -/
theorem parse_content_length_overflow :
    ParseRequest (str "GET / HTTP/1.1\ncontent-length: 9223372036854775808\n\n")
      = .error .invalidContentLength ∧
    (9223372036854775808 : Int) > 262144 ∧
    ParseError.invalidContentLength ≠ ParseError.bodyTooLarge :=
  ⟨by rfl, by norm_num, by decide⟩

/-- Witness for C3 at four concrete inputs: an empty value, the boundary
violation 262,145, the accepted boundary 262,144 short of body bytes, and a
fully supplied 3-byte body. -/
theorem parse_content_length_rules_witness :
    ParseRequest (str "GET / HTTP/1.1\ncontent-length:\n\n")
      = .error .invalidContentLength ∧
    ParseRequest (str "GET / HTTP/1.1\ncontent-length: 262145\n\n")
      = .error .bodyTooLarge ∧
    ParseRequest (str "GET / HTTP/1.1\ncontent-length: 262144\n\n")
      = .error .incompleteBody ∧
    ParseRequest pipeEx = .ok (pipeReq, 39) := by
  refine ⟨?_, ?_, ?_, ?_⟩
  · exact (@parse_content_length_rules (str "GET / HTTP/1.1\ncontent-length:\n\n") 30 2
      (str "GET / HTTP/1.1") [str "content-length:"] (str "GET") (str "/") (str "HTTP/1.1")
      [(str "content-length", [])] []
      (by rfl) (by decide) (by rfl) (by decide) (by decide) (by rfl) (by rfl) (by decide)
      (by rfl)).1 rfl
  · exact (@parse_content_length_rules (str "GET / HTTP/1.1\ncontent-length: 262145\n\n") 37 2
      (str "GET / HTTP/1.1") [str "content-length: 262145"] (str "GET") (str "/")
      (str "HTTP/1.1") [(str "content-length", str "262145")] (str "262145")
      (by rfl) (by decide) (by rfl) (by decide) (by decide) (by rfl) (by rfl) (by decide)
      (by rfl)).2.2.2.1 262145 (by rfl) (by decide) (by decide)
  · exact (@parse_content_length_rules (str "GET / HTTP/1.1\ncontent-length: 262144\n\n") 37 2
      (str "GET / HTTP/1.1") [str "content-length: 262144"] (str "GET") (str "/")
      (str "HTTP/1.1") [(str "content-length", str "262144")] (str "262144")
      (by rfl) (by decide) (by rfl) (by decide) (by decide) (by rfl) (by rfl) (by decide)
      (by rfl)).2.2.2.2.1 262144 (by rfl) (by decide) (by decide) (by decide)
  · exact ((@parse_content_length_rules pipeEx 34 2
      (str "POST /u HTTP/1.1") [str "content-length: 3"] (str "POST") (str "/u")
      (str "HTTP/1.1") [(str "content-length", str "3")] (str "3")
      (by rfl) (by decide) (by rfl) (by decide) (by decide) (by rfl) (by rfl) (by decide)
      (by rfl)).2.2.2.2.2 3 (by rfl) (by decide) (by decide) (by decide)).1

/-! ## Claim theorems: request-line handling (C4) -/

theorem parseRequestLine_not3 {line : Bytes} (h : (fields line).length ≠ 3) :
    parseRequestLine line = .error .malformedRequestLine := by
  unfold parseRequestLine
  split
  next m p v hf =>
    exact absurd (by rw [hf]; rfl) h
  next => rfl

theorem parseRequestLine_badVersion {line m p v : Bytes}
    (hf : fields line = [m, p, v]) (h1 : v ≠ str "HTTP/1.1") (h2 : v ≠ str "HTTP/1.0") :
    parseRequestLine line = .error .invalidHTTPVersion := by
  unfold parseRequestLine
  rw [hf]
  dsimp only
  rw [if_pos ⟨h1, h2⟩]

/-- C4 (amended): with a found header terminator, the parser takes the FIRST
line of the header block as the request line and does not skip leading blank
lines — a blank first line yields `Malformed(RequestLine)`; a first line
longer than 4,096 bytes yields `Malformed(RequestLineTooLong)`; a first line
that does not split on runs of white space into exactly three parts yields
`Malformed(RequestLine)`; a third part other than `HTTP/1.1` or `HTTP/1.0`
yields `Malformed(Version)`. -/
theorem parse_request_line_rules {data : Bytes} {e d : Nat} {line0 : Bytes}
    {restLines : List Bytes}
    (h1 : findHeaderDelimiter data = some (e, d))
    (h2 : e ≤ maxHeadersBytes)
    (h3 : splitLines (data.take e) = line0 :: restLines) :
    (trimSpace line0 = [] → ParseRequest data = .error .malformedRequestLine) ∧
    (trimSpace line0 ≠ [] → line0.length > maxRequestLineBytes →
      ParseRequest data = .error .requestLineTooLong) ∧
    (trimSpace line0 ≠ [] → line0.length ≤ maxRequestLineBytes →
      (fields line0).length ≠ 3 → ParseRequest data = .error .malformedRequestLine) ∧
    (trimSpace line0 ≠ [] → line0.length ≤ maxRequestLineBytes →
      ∀ m p v, fields line0 = [m, p, v] → v ≠ str "HTTP/1.1" → v ≠ str "HTTP/1.0" →
      ParseRequest data = .error .invalidHTTPVersion) := by
  have hne : data ≠ [] := by
    intro hd
    rw [hd, findHeaderDelimiter_nil] at h1
    cases h1
  refine ⟨?_, ?_, ?_, ?_⟩
  · intro hblank
    simp only [ParseRequest]
    rw [if_neg hne, h1]
    dsimp only
    rw [if_neg (by omega : ¬ e > maxHeadersBytes), h3]
    dsimp only
    rw [if_pos hblank]
  · intro hblank hlong
    simp only [ParseRequest]
    rw [if_neg hne, h1]
    dsimp only
    rw [if_neg (by omega : ¬ e > maxHeadersBytes), h3]
    dsimp only
    rw [if_neg hblank, if_pos hlong]
  · intro hblank hlen hf3
    simp only [ParseRequest]
    rw [if_neg hne, h1]
    dsimp only
    rw [if_neg (by omega : ¬ e > maxHeadersBytes), h3]
    dsimp only
    rw [if_neg hblank, if_neg (by omega : ¬ line0.length > maxRequestLineBytes),
      parseRequestLine_not3 hf3]
  · intro hblank hlen m p v hf hv1 hv2
    simp only [ParseRequest]
    rw [if_neg hne, h1]
    dsimp only
    rw [if_neg (by omega : ¬ e > maxHeadersBytes), h3]
    dsimp only
    rw [if_neg hblank, if_neg (by omega : ¬ line0.length > maxRequestLineBytes),
      parseRequestLine_badVersion hf hv1 hv2]

/-- C4 counterexample: on `"\nGET / HTTP/1.1\n\n"` the header block's first
line is blank while its first NON-empty line is a well-formed request line;
the parser nonetheless answers `Malformed(RequestLine)`, so leading blank
lines are not skipped as the claim states. -/
theorem parse_leading_blank_line :
    ParseRequest (str "\nGET / HTTP/1.1\n\n") = .error .malformedRequestLine ∧
    splitLines ((str "\nGET / HTTP/1.1\n\n").take 15) = [[], str "GET / HTTP/1.1"] ∧
    parseRequestLine (str "GET / HTTP/1.1") = .ok (str "GET", str "/", str "HTTP/1.1") :=
  ⟨by rfl, by rfl, by rfl⟩

/-! Helper facts for replicate-shaped inputs. -/

theorem crlf_not_prefix_a : ∀ t, ¬ ((str "\r\n\r\n").isPrefixOf ('a' :: t) = true) := fun t => by
  rw [show str "\r\n\r\n" = '\r' :: str "\n\r\n" from rfl]
  exact not_isPrefixOf_cons_of_head_ne (by decide) t

theorem lf_not_prefix_a : ∀ t, ¬ ((str "\n\n").isPrefixOf ('a' :: t) = true) := fun t => by
  rw [show str "\n\n" = '\n' :: str "\n" from rfl]
  exact not_isPrefixOf_cons_of_head_ne (by decide) t

theorem fhd_replicate_a_lf (k : Nat) :
    findHeaderDelimiter (List.replicate k 'a' ++ str "\n\n") = some (k, 2) := by
  refine fhd_lf_of ?_ ?_
  · rw [firstOccur_replicate_append k crlf_not_prefix_a,
      show firstOccur (str "\r\n\r\n") (str "\n\n") = none from rfl]
    rfl
  · rw [firstOccur_replicate_append k lf_not_prefix_a,
      show firstOccur (str "\n\n") (str "\n\n") = some 0 from rfl]
    simp

theorem replaceCRLF_replicate_a (k : Nat) :
    replaceCRLF (List.replicate k 'a') = List.replicate k 'a' := by
  induction k with
  | zero => rfl
  | succ n ih =>
    rw [List.replicate_succ,
      show replaceCRLF ('a' :: List.replicate n 'a')
        = 'a' :: replaceCRLF (List.replicate n 'a') from rfl, ih]

theorem splitOnByte_replicate_a (k : Nat) :
    splitOnByte '\n' (List.replicate k 'a') = [List.replicate k 'a'] := by
  induction k with
  | zero => rfl
  | succ n ih =>
    rw [List.replicate_succ]
    simp only [splitOnByte]
    rw [ih]
    dsimp only
    rw [if_neg (by decide)]

theorem dropWhile_space_replicate_a (k : Nat) :
    (List.replicate k 'a').dropWhile goIsSpace = List.replicate k 'a' := by
  cases k with
  | zero => rfl
  | succ n =>
    rw [List.replicate_succ, List.dropWhile_cons]
    rw [if_neg (by decide)]

theorem trimSpace_replicate_a (k : Nat) :
    trimSpace (List.replicate k 'a') = List.replicate k 'a' := by
  unfold trimSpace
  rw [dropWhile_space_replicate_a, List.reverse_replicate, dropWhile_space_replicate_a,
    List.reverse_replicate]

/-- Witness for C4 at four concrete inputs: a blank first line, a 4,097-byte
request line, a four-part request line, and an unsupported version token. -/
theorem parse_request_line_rules_witness :
    ParseRequest (str "\nGET / HTTP/1.1\nHost: x\n\n") = .error .malformedRequestLine ∧
    ParseRequest (List.replicate 4097 'a' ++ str "\n\n") = .error .requestLineTooLong ∧
    ParseRequest (str "GET / HTTP/1.1 X\n\n") = .error .malformedRequestLine ∧
    ParseRequest (str "GET / HTTP/2\n\n") = .error .invalidHTTPVersion := by
  refine ⟨?_, ?_, ?_, ?_⟩
  · exact (@parse_request_line_rules (str "\nGET / HTTP/1.1\nHost: x\n\n") 23 2 []
      [str "GET / HTTP/1.1", str "Host: x"] (by rfl) (by decide) (by rfl)).1 rfl
  · have h3 : splitLines ((List.replicate 4097 'a' ++ str "\n\n").take 4097)
        = List.replicate 4097 'a' :: [] := by
      rw [List.take_left' (by rw [List.length_replicate])]
      unfold splitLines
      rw [replaceCRLF_replicate_a, splitOnByte_replicate_a]
    have := (@parse_request_line_rules (List.replicate 4097 'a' ++ str "\n\n") 4097 2
      (List.replicate 4097 'a') [] (fhd_replicate_a_lf 4097) (by decide) h3).2.1
    refine this ?_ ?_
    · rw [trimSpace_replicate_a]
      intro hcon
      have h2 := congrArg List.length hcon
      rw [List.length_replicate, List.length_nil] at h2
      exact absurd h2 (by norm_num)
    · rw [List.length_replicate]
      norm_num [maxRequestLineBytes]
  · exact (@parse_request_line_rules (str "GET / HTTP/1.1 X\n\n") 16 2
      (str "GET / HTTP/1.1 X") [] (by rfl) (by decide) (by rfl)).2.2.1 (by decide)
      (by decide) (by decide)
  · exact (@parse_request_line_rules (str "GET / HTTP/2\n\n") 12 2
      (str "GET / HTTP/2") [] (by rfl) (by decide) (by rfl)).2.2.2 (by decide) (by decide)
      (str "GET") (str "/") (str "HTTP/2") (by rfl) (by decide) (by decide)

/-! ## Map lemmas -/

theorem mapGet?_mapSet_self {α : Type} (m : List (Bytes × α)) (k : Bytes) (v : α) :
    mapGet? (mapSet m k v) k = some v := by
  induction m with
  | nil =>
    show mapGet? [(k, v)] k = some v
    simp only [mapGet?]
    simp
  | cons kv rest ih =>
    obtain ⟨k', v'⟩ := kv
    simp only [mapSet]
    by_cases h : k' = k
    · rw [if_pos h]
      simp only [mapGet?]
      simp
    · rw [if_neg h]
      simp only [mapGet?]
      rw [if_neg h]
      exact ih

theorem mem_map_fst_mapSet {α : Type} (m : List (Bytes × α)) (k : Bytes) (v : α) :
    k ∈ (mapSet m k v).map Prod.fst := by
  induction m with
  | nil =>
    show k ∈ [(k, v)].map Prod.fst
    rw [List.map_cons]
    exact List.mem_cons_self k _
  | cons kv rest ih =>
    obtain ⟨k', v'⟩ := kv
    simp only [mapSet]
    by_cases h : k' = k
    · rw [if_pos h, List.map_cons]
      exact List.mem_cons_self k _
    · rw [if_neg h, List.map_cons]
      exact List.mem_cons_of_mem k' ih

/-! ## Claim theorems: keep-alive policy (C7) and Connection stamping (C6) -/

/-- C7: `shouldCloseConnection` coincides with the specification's
`decide_close` and satisfies its three rules: an HTTP/1.1 request closes iff
the lowercased, trimmed Connection value equals `"close"`; an HTTP/1.0
request closes unless that value equals `"keep-alive"`; any other version
closes. -/
theorem shouldClose_policy (req : Request) :
    shouldCloseConnection req = decideCloseSpec req ∧
    (shouldCloseConnection req = true ↔
      (req.version = str "HTTP/1.1" ∧
        goToLower (trimSpace (mapGetD req.headers (str "connection"))) = str "close") ∨
      (req.version = str "HTTP/1.0" ∧
        goToLower (trimSpace (mapGetD req.headers (str "connection"))) ≠ str "keep-alive") ∨
      (req.version ≠ str "HTTP/1.1" ∧ req.version ≠ str "HTTP/1.0")) := by
  refine ⟨rfl, ?_⟩
  unfold shouldCloseConnection
  by_cases h1 : req.version = str "HTTP/1.1"
  · rw [if_pos h1]
    have hne : ¬ req.version = str "HTTP/1.0" := by
      rw [h1]
      decide
    simp only [decide_eq_true_eq]
    constructor
    · intro hv
      exact Or.inl ⟨h1, hv⟩
    · rintro (⟨_, hv⟩ | ⟨h10, _⟩ | ⟨hn1, _⟩)
      · exact hv
      · exact absurd h10 hne
      · exact absurd h1 hn1
  · rw [if_neg h1]
    by_cases h2 : req.version = str "HTTP/1.0"
    · rw [if_pos h2]
      simp only [decide_eq_true_eq]
      constructor
      · intro hv
        exact Or.inr (Or.inl ⟨h2, hv⟩)
      · rintro (⟨h11, _⟩ | ⟨_, hv⟩ | ⟨_, hn0⟩)
        · exact absurd h11 h1
        · exact hv
        · exact absurd h2 hn0
    · rw [if_neg h2]
      constructor
      · intro _
        exact Or.inr (Or.inr ⟨h1, h2⟩)
      · intro _
        rfl

theorem setConnectionHeader_get (resp : Response) (b : Bool) :
    mapGet? (setConnectionHeader resp b).headers (str "Connection")
      = some (if b then str "close" else str "keep-alive") := by
  cases b
  · simp only [setConnectionHeader, Bool.false_eq_true, if_false, Response.SetHeader]
    exact mapGet?_mapSet_self _ _ _
  · simp only [setConnectionHeader, if_true, Response.SetHeader]
    exact mapGet?_mapSet_self _ _ _

/-- C6 (amended): after the routed handler returns (a nil result normalised
to the 500 response), the engine stamps the response's Connection header
under the exact key `"Connection"` with the keep-alive policy value,
overriding any handler value stored under that exact key.  Handler values
under other capitalisations of the name are not removed (see the
counterexample). -/
theorem engine_sets_connection_header (req : Request) (hr : Option Response) :
    mapGet? (engineResponse req hr).headers (str "Connection")
      = some (if shouldCloseConnection req then str "close" else str "keep-alive") := by
  unfold engineResponse
  exact setConnectionHeader_get _ _

/-- C6 counterexample: a handler that set its Connection value under the
lowercase key `"connection"` keeps that entry after the engine stamps the
policy — the response then carries both `connection: upgrade` and
`Connection: keep-alive` in its serialised bytes, so the engine does not
override the handler value under every capitalisation and the wire response
does not carry exactly the policy value for Connection. -/
theorem engine_connection_case_not_overridden :
    mapGet? (engineResponse
      { method := str "GET", path := str "/", version := str "HTTP/1.1",
        headers := [], body := [] }
      (some { statusCode := 200, headers := [(str "connection", str "upgrade")],
              body := [] })).headers (str "connection") = some (str "upgrade") ∧
    mapGet? (engineResponse
      { method := str "GET", path := str "/", version := str "HTTP/1.1",
        headers := [], body := [] }
      (some { statusCode := 200, headers := [(str "connection", str "upgrade")],
              body := [] })).headers (str "Connection") = some (str "keep-alive") ∧
    equalFold (str "connection") (str "Connection") = true ∧
    str "upgrade" ≠ str "close" ∧
    str "upgrade" ≠ str "keep-alive" ∧
    firstOccur (str "connection: upgrade")
      (Response.Bytes (engineResponse
        { method := str "GET", path := str "/", version := str "HTTP/1.1",
          headers := [], body := [] }
        (some { statusCode := 200, headers := [(str "connection", str "upgrade")],
                body := [] }))) ≠ none := by
  refine ⟨by rfl, by rfl, by rfl, by decide, by decide, by decide⟩

/-! ## Sorting lemmas for `AllowedMethods` (C8) -/

theorem bytesLe_total : ∀ a b : Bytes, bytesLe a b = true ∨ bytesLe b a = true := by
  intro a
  induction a with
  | nil =>
    intro b
    left
    rfl
  | cons x xs ih =>
    intro b
    cases b with
    | nil =>
      right
      rfl
    | cons y ys =>
      simp only [bytesLe]
      by_cases h1 : x < y
      · left
        rw [if_pos h1]
      · by_cases h2 : y < x
        · right
          rw [if_pos h2]
        · rw [if_neg h1, if_neg h2, if_neg h2, if_neg h1]
          exact ih ys

theorem bytesLe_trans :
    ∀ a b c : Bytes, bytesLe a b = true → bytesLe b c = true → bytesLe a c = true := by
  intro a
  induction a with
  | nil =>
    intro b c _ _
    rfl
  | cons x xs ih =>
    intro b c hab hbc
    cases b with
    | nil =>
      simp only [bytesLe] at hab
      exact Bool.noConfusion hab
    | cons y ys =>
      cases c with
      | nil =>
        simp only [bytesLe] at hbc
        exact Bool.noConfusion hbc
      | cons z zs =>
        simp only [bytesLe] at hab hbc ⊢
        by_cases h1 : x < y
        · by_cases h2 : y < z
          · rw [if_pos (h1.trans h2)]
          · by_cases h3 : z < y
            · rw [if_neg h2, if_pos h3] at hbc
              exact Bool.noConfusion hbc
            · have hyz : y = z := le_antisymm (not_lt.mp h3) (not_lt.mp h2)
              rw [← hyz]
              rw [if_pos h1]
        · by_cases h1' : y < x
          · rw [if_neg h1, if_pos h1'] at hab
            exact Bool.noConfusion hab
          · have hxy : x = y := le_antisymm (not_lt.mp h1') (not_lt.mp h1)
            subst hxy
            rw [if_neg h1, if_neg h1'] at hab
            by_cases h2 : x < z
            · rw [if_pos h2]
            · by_cases h3 : z < x
              · rw [if_neg h2, if_pos h3] at hbc
                exact Bool.noConfusion hbc
              · rw [if_neg h2, if_neg h3] at hbc ⊢
                exact ih ys zs hab hbc

theorem mem_insertSorted {x y : Bytes} {l : List Bytes} :
    y ∈ insertSorted x l ↔ y = x ∨ y ∈ l := by
  induction l with
  | nil => simp [insertSorted]
  | cons z zs ih =>
    simp only [insertSorted]
    by_cases h : bytesLe x z
    · rw [if_pos h]
      exact List.mem_cons
    · rw [if_neg h]
      rw [List.mem_cons, ih, List.mem_cons]
      tauto

theorem insertSorted_perm (x : Bytes) (l : List Bytes) :
    List.Perm (insertSorted x l) (x :: l) := by
  induction l with
  | nil => exact List.Perm.refl _
  | cons z zs ih =>
    simp only [insertSorted]
    by_cases h : bytesLe x z
    · rw [if_pos h]
    · rw [if_neg h]
      exact (ih.cons z).trans (List.Perm.swap x z zs)

theorem sortBytes_perm (l : List Bytes) : List.Perm (sortBytes l) l := by
  induction l with
  | nil => exact List.Perm.refl _
  | cons x xs ih => exact (insertSorted_perm x (sortBytes xs)).trans (ih.cons x)

theorem insertSorted_sorted {x : Bytes} {l : List Bytes}
    (hl : l.Pairwise (fun a b => bytesLe a b = true)) :
    (insertSorted x l).Pairwise (fun a b => bytesLe a b = true) := by
  induction l with
  | nil => simp [insertSorted]
  | cons z zs ih =>
    rcases List.pairwise_cons.mp hl with ⟨hz, hzs⟩
    simp only [insertSorted]
    by_cases h : bytesLe x z
    · rw [if_pos h]
      refine List.pairwise_cons.mpr ⟨?_, hl⟩
      intro y hy
      rcases List.mem_cons.mp hy with rfl | hy'
      · exact h
      · exact bytesLe_trans x z y h (hz y hy')
    · rw [if_neg h]
      refine List.pairwise_cons.mpr ⟨?_, ih hzs⟩
      intro y hy
      rcases mem_insertSorted.mp hy with rfl | hy'
      · rcases bytesLe_total y z with h' | h'
        · exact absurd h' h
        · exact h'
      · exact hz y hy'

theorem sortBytes_sorted (l : List Bytes) :
    (sortBytes l).Pairwise (fun a b => bytesLe a b = true) := by
  induction l with
  | nil => simp [sortBytes]
  | cons x xs ih => exact insertSorted_sorted ih

theorem dedupBytes_nodup (l : List Bytes) : (dedupBytes l).Nodup := by
  induction l with
  | nil => simp [dedupBytes]
  | cons x xs ih =>
    simp only [dedupBytes]
    by_cases h : x ∈ dedupBytes xs
    · rw [if_pos h]
      exact ih
    · rw [if_neg h]
      exact List.nodup_cons.mpr ⟨h, ih⟩

theorem mem_dedupBytes {x : Bytes} {l : List Bytes} : x ∈ dedupBytes l ↔ x ∈ l := by
  induction l with
  | nil => simp [dedupBytes]
  | cons z zs ih =>
    simp only [dedupBytes]
    by_cases h : z ∈ dedupBytes zs
    · rw [if_pos h]
      rw [ih]
      simp only [List.mem_cons]
      constructor
      · exact Or.inr
      · rintro (rfl | hx)
        · exact ih.mp h
        · exact hx
    · rw [if_neg h]
      simp [List.mem_cons, ih]

theorem hasSuffix_append (a b : Bytes) : hasSuffix (a ++ b) b = true := by
  unfold hasSuffix
  simp only [List.length_append, Bool.and_eq_true, decide_eq_true_eq]
  constructor
  · omega
  · rw [show a.length + b.length - b.length = a.length by omega, List.drop_left]

theorem trimSuffix_append (a b : Bytes) : trimSuffix (a ++ b) b = a := by
  unfold trimSuffix
  rw [if_pos (hasSuffix_append a b)]
  rw [List.length_append, show a.length + b.length - b.length = a.length by omega,
    List.take_left]

/-! ## Claim theorems: router allowed methods (C8) -/

/-- C8 (amended): `Register` stores the key `uppercase(M) + ":" + P`, and
for every registered pair with a NONEMPTY method, `AllowedMethods P`
contains `uppercase(M)` — not `M` itself when `M` has lowercase letters —
and the returned list is always ASCII-sorted ascending with no duplicates. -/
theorem allowedMethods_spec (r : Router) (path : Bytes) :
    (∀ method : Bytes, method ≠ [] →
      routeKey method path ∈ r.routes.map Prod.fst →
      goToUpper method ∈ r.AllowedMethods path) ∧
    (r.AllowedMethods path).Pairwise (fun a b => bytesLe a b = true) ∧
    (r.AllowedMethods path).Nodup ∧
    (∀ (r0 : Router) (method : Bytes) (handler : HandlerAdapter),
      routeKey method path ∈ ((r0.Register method path handler)).routes.map Prod.fst) := by
  refine ⟨?_, ?_, ?_, ?_⟩
  · intro method hm hmem
    have hupne : goToUpper method ≠ [] := by
      intro hcon
      have hlen := congrArg List.length hcon
      rw [goToUpper, List.length_map, List.length_nil] at hlen
      exact hm (List.length_eq_zero.mp hlen)
    unfold Router.AllowedMethods
    dsimp only
    rw [(sortBytes_perm _).mem_iff, mem_dedupBytes, List.mem_filterMap]
    refine ⟨routeKey method path, hmem, ?_⟩
    show (if hasSuffix (routeKey method path) (':' :: path) = true then
        (if trimSuffix (routeKey method path) (':' :: path) = [] then none
         else some (trimSuffix (routeKey method path) (':' :: path)))
      else none) = some (goToUpper method)
    rw [show routeKey method path = goToUpper method ++ ':' :: path from rfl]
    rw [if_pos (hasSuffix_append _ _), trimSuffix_append, if_neg hupne]
  · exact sortBytes_sorted _
  · exact ((sortBytes_perm _).nodup_iff).mpr (dedupBytes_nodup _)
  · intro r0 method handler
    unfold Router.Register
    exact mem_map_fst_mapSet _ _ _

/-- C8 counterexample: after registering method `"get"` (lowercase) for path
`"/p"`, `AllowedMethods "/p"` is `["GET"]`, which does not contain the
registered method string `"get"` itself. -/
theorem allowedMethods_lowercase_missing :
    (NewRouter.Register (str "get") (str "/p") (fun _ => none)).AllowedMethods (str "/p")
      = [str "GET"] ∧
    str "get" ∉ [str "GET"] :=
  ⟨by rfl, by decide⟩

/-- Witness for C8: the registered lowercase method appears uppercased in
the allowed list, which is sorted and duplicate-free. -/
theorem allowedMethods_spec_witness :
    goToUpper (str "get")
      ∈ (NewRouter.Register (str "get") (str "/p") (fun _ => none)).AllowedMethods (str "/p") ∧
    ((NewRouter.Register (str "get") (str "/p") (fun _ => none)).AllowedMethods
      (str "/p")).Nodup := by
  have h := allowedMethods_spec (NewRouter.Register (str "get") (str "/p") (fun _ => none))
    (str "/p")
  refine ⟨h.1 (str "get") (by decide) ?_, h.2.2.1⟩
  show routeKey (str "get") (str "/p")
    ∈ ((NewRouter.Register (str "get") (str "/p") (fun _ => none)).routes.map Prod.fst)
  exact (allowedMethods_spec NewRouter (str "/p")).2.2.2 NewRouter (str "get") (fun _ => none)

/-! ## Claim theorems: logging middleware (C10) -/

/-- C10: the logging middleware returns exactly the response object produced
by the downstream handler; a nil downstream response is normalised to the
500 Internal Server Error response.  In particular it never changes the
status code, headers, or body of a non-nil downstream response (the returned
value is the very same record).  The logger argument of the Go function only
receives the log line and cannot influence the returned response. -/
theorem loggingMiddleware_frame (f : HandlerAdapter) (req : Request) :
    (∀ resp, f req = some resp → (LoggingMiddleware (some f) req).1 = resp) ∧
    (f req = none →
      (LoggingMiddleware (some f) req).1 = internalServerErrorResponse ∧
      internalServerErrorResponse.statusCode = 500 ∧
      internalServerErrorResponse.body = str "Internal Server Error") := by
  constructor
  · intro resp h
    simp only [LoggingMiddleware, safeInvoke, safeResponse, h]
  · intro h
    refine ⟨?_, rfl, rfl⟩
    simp only [LoggingMiddleware, safeInvoke, safeResponse, h]

/-- Witness for C10 at a concrete handler and request. -/
theorem loggingMiddleware_frame_witness :
    (LoggingMiddleware
      (some (fun _ => some { statusCode := 204, headers := [(str "X-K", str "y")],
                             body := str "b" }))
      { method := str "GET", path := str "/l", version := str "HTTP/1.1",
        headers := [], body := [] }).1
      = { statusCode := 204, headers := [(str "X-K", str "y")], body := str "b" } :=
  (loggingMiddleware_frame _ _).1 _ rfl

/-! ## Serialisation framing (C5) -/

theorem char_digit_ne_cr : ∀ m : Nat, m < 10 → Char.ofNat (48 + m) ≠ '\r' := by
  intro m hm
  interval_cases m <;> decide

theorem natToBytesAux_clean : ∀ fuel n : Nat, ∀ c ∈ natToBytesAux fuel n, c ≠ '\r' := by
  intro fuel
  induction fuel with
  | zero =>
    intro n c hc
    simp [natToBytesAux] at hc
  | succ f ih =>
    intro n c hc
    simp only [natToBytesAux] at hc
    split at hc
    · rename_i h
      rw [List.mem_singleton] at hc
      subst hc
      exact char_digit_ne_cr n h
    · rcases List.mem_append.mp hc with hc' | hc'
      · exact ih _ c hc'
      · rw [List.mem_singleton] at hc'
        subst hc'
        exact char_digit_ne_cr _ (Nat.mod_lt _ (by norm_num))

theorem intToBytes_clean (i : Int) : ∀ c ∈ intToBytes i, c ≠ '\r' := by
  unfold intToBytes
  split
  · intro c hc
    rcases List.mem_cons.mp hc with rfl | hc'
    · decide
    · exact natToBytesAux_clean _ _ c hc'
  · intro c hc
    exact natToBytesAux_clean _ _ c hc

theorem statusText_clean (code : Int) : ∀ c ∈ statusText code, c ≠ '\r' := by
  unfold statusText
  repeat' split
  all_goals decide

theorem statusLine_clean (code : Int) :
    ∀ c ∈ str "HTTP/1.1 " ++ intToBytes code ++ str " " ++ statusText code, c ≠ '\r' := by
  intro c hc
  rcases List.mem_append.mp hc with hc1 | hc1
  · rcases List.mem_append.mp hc1 with hc2 | hc2
    · rcases List.mem_append.mp hc2 with hc3 | hc3
      · exact (show ∀ x ∈ str "HTTP/1.1 ", x ≠ '\r' by decide) c hc3
      · exact intToBytes_clean code c hc3
    · exact (show ∀ x ∈ str " ", x ≠ '\r' by decide) c hc2
  · exact statusText_clean code c hc1

theorem headerLine_clean {kv : Bytes × Bytes} (hk : ¬ '\r' ∈ kv.1) (hv : ¬ '\r' ∈ kv.2) :
    ∀ c ∈ kv.1 ++ str ": " ++ kv.2, c ≠ '\r' := by
  intro c hc
  rcases List.mem_append.mp hc with hc1 | hc1
  · rcases List.mem_append.mp hc1 with hc2 | hc2
    · intro hh
      exact hk (hh ▸ hc2)
    · exact (show ∀ x ∈ str ": ", x ≠ '\r' by decide) c hc2
  · intro hh
    exact hv (hh ▸ hc1)

theorem exists_cons_headerLine (kv : Bytes × Bytes) (hk : ¬ '\r' ∈ kv.1) (s : Bytes) :
    ∃ c t, headerLine kv ++ s = c :: t ∧ c ≠ '\r' := by
  obtain ⟨k, v⟩ := kv
  cases k with
  | nil =>
    refine ⟨':', ' ' :: (v ++ str "\r\n" ++ s), ?_, by decide⟩
    simp [headerLine, str, List.append_assoc]
  | cons x xs =>
    refine ⟨x, xs ++ str ": " ++ v ++ str "\r\n" ++ s, ?_, ?_⟩
    · simp [headerLine, List.append_assoc]
    · intro hx
      exact hk (hx ▸ List.mem_cons_self x xs)

theorem firstOccur_crlf4_skip2 {c2 : Char} (h : c2 ≠ '\r') (t2 : Bytes) :
    firstOccur ('\r' :: str "\n\r\n") ('\r' :: '\n' :: c2 :: t2)
      = (firstOccur ('\r' :: str "\n\r\n") (c2 :: t2)).map (· + 2) := by
  have h0 : ¬ (('\r' :: str "\n\r\n").isPrefixOf ('\r' :: '\n' :: c2 :: t2) = true) := by
    intro hcon
    rcases List.isPrefixOf_iff_prefix.mp hcon with ⟨u, hu⟩
    have hu' : '\r' :: '\n' :: '\r' :: '\n' :: u = '\r' :: '\n' :: c2 :: t2 := hu
    injection hu' with _ h1
    injection h1 with _ h2
    injection h2 with h3 _
    exact h h3.symm
  have h1 : ¬ (('\r' :: str "\n\r\n").isPrefixOf ('\n' :: c2 :: t2) = true) :=
    not_isPrefixOf_cons_of_head_ne (by decide) _
  simp only [firstOccur]
  rw [if_neg h0, if_neg h1]
  cases firstOccur ('\r' :: str "\n\r\n") (c2 :: t2) <;> simp

theorem firstOccur_crlf4_here (b : Bytes) :
    firstOccur ('\r' :: str "\n\r\n") ('\r' :: '\n' :: '\r' :: '\n' :: b) = some 0 := by
  have hp : ('\r' :: str "\n\r\n").isPrefixOf ('\r' :: '\n' :: '\r' :: '\n' :: b) = true :=
    List.isPrefixOf_iff_prefix.mpr ⟨b, rfl⟩
  rw [firstOccur, if_pos hp]

theorem headerLine_length (kv : Bytes × Bytes) :
    (headerLine kv).length = (kv.1 ++ str ": " ++ kv.2).length + 2 := by
  unfold headerLine
  rw [List.length_append, show (str "\r\n").length = 2 from rfl]

theorem firstOccur_flatten_block (hs : HeaderMap) (hne : hs ≠ [])
    (hclean : ∀ kv ∈ hs, ¬ '\r' ∈ kv.1 ∧ ¬ '\r' ∈ kv.2) (b : Bytes) :
    firstOccur ('\r' :: str "\n\r\n") ((hs.map headerLine).flatten ++ (str "\r\n" ++ b))
      = some ((hs.map headerLine).flatten.length - 2) ∧
    2 ≤ (hs.map headerLine).flatten.length := by
  induction hs with
  | nil => exact absurd rfl hne
  | cons kv rest ih =>
    obtain ⟨hk, hv⟩ := hclean kv (List.mem_cons_self _ _)
    have hL := headerLine_clean hk hv
    cases rest with
    | nil =>
      have hflen : (([kv]).map headerLine).flatten.length
          = (kv.1 ++ str ": " ++ kv.2).length + 2 := by
        simp only [List.map_cons, List.map_nil, List.flatten_cons, List.flatten_nil,
          List.append_nil]
        exact headerLine_length kv
      constructor
      · have hshape : (([kv].map headerLine).flatten ++ (str "\r\n" ++ b))
            = (kv.1 ++ str ": " ++ kv.2) ++ ('\r' :: '\n' :: '\r' :: '\n' :: b) := by
          simp only [List.map_cons, List.map_nil, List.flatten_cons, List.flatten_nil,
            List.append_nil]
          rw [headerLine, List.append_assoc]
          rfl
        rw [hshape, firstOccur_append_shift hL, firstOccur_crlf4_here]
        simp only [Option.map_some']
        congr 1
        rw [hflen]
        omega
      · rw [hflen]
        omega
    | cons kv2 rest2 =>
      have hclean2 : ∀ p ∈ kv2 :: rest2, ¬ '\r' ∈ p.1 ∧ ¬ '\r' ∈ p.2 := by
        intro p hp
        exact hclean p (List.mem_cons_of_mem _ hp)
      obtain ⟨hfo2, hlen2⟩ := ih (by simp) hclean2
      obtain ⟨c2, t2, hct, hc2⟩ := exists_cons_headerLine kv2 (hclean2 kv2 (by simp)).1
        ((rest2.map headerLine).flatten ++ (str "\r\n" ++ b))
      have hflat2 : ((kv2 :: rest2).map headerLine).flatten ++ (str "\r\n" ++ b) = c2 :: t2 := by
        rw [List.map_cons, List.flatten_cons, List.append_assoc]
        exact hct
      have hlens : ((kv :: kv2 :: rest2).map headerLine).flatten.length
          = (kv.1 ++ str ": " ++ kv.2).length + 2
            + ((kv2 :: rest2).map headerLine).flatten.length := by
        rw [List.map_cons, List.flatten_cons, List.length_append, headerLine_length]
      have hshape : (((kv :: kv2 :: rest2).map headerLine).flatten ++ (str "\r\n" ++ b))
          = (kv.1 ++ str ": " ++ kv.2) ++ ('\r' :: '\n' :: c2 :: t2) := by
        rw [List.map_cons, List.flatten_cons, List.append_assoc, hflat2]
        rw [headerLine, List.append_assoc]
        rfl
      constructor
      · rw [hshape, firstOccur_append_shift hL, firstOccur_crlf4_skip2 hc2, ← hflat2, hfo2]
        simp only [Option.map_some']
        congr 1
        omega
      · rw [hlens]
        omega

theorem equalFold_refl (a : Bytes) : equalFold a a = true := by
  unfold equalFold
  simp

theorem hasHeaderIgnoreCase_false_forall {m : HeaderMap} {t : Bytes}
    (h : hasHeaderIgnoreCase m t = false) : ∀ kv ∈ m, kv.1 ≠ t := by
  intro kv hkv hcon
  have : m.any (fun kv => equalFold kv.1 t) = true :=
    List.any_eq_true.mpr ⟨kv, hkv, by rw [hcon]; exact equalFold_refl t⟩
  rw [hasHeaderIgnoreCase] at h
  rw [h] at this
  exact Bool.noConfusion this

theorem mapSet_append_of_absent {α : Type} {m : List (Bytes × α)} {k : Bytes} (v : α)
    (h : ∀ kv ∈ m, kv.1 ≠ k) : mapSet m k v = m ++ [(k, v)] := by
  induction m with
  | nil => rfl
  | cons kv rest ih =>
    simp only [mapSet]
    rw [if_neg (h kv (List.mem_cons_self _ _)), List.cons_append]
    congr 1
    exact ih fun p hp => h p (List.mem_cons_of_mem _ hp)

theorem mapGet?_append_last {α : Type} {m : List (Bytes × α)} {k : Bytes} (v : α)
    (h : ∀ kv ∈ m, kv.1 ≠ k) : mapGet? (m ++ [(k, v)]) k = some v := by
  induction m with
  | nil =>
    simp only [List.nil_append, mapGet?]
    simp
  | cons kv rest ih =>
    rw [List.cons_append]
    simp only [mapGet?]
    rw [if_neg (h kv (List.mem_cons_self _ _))]
    exact ih fun p hp => h p (List.mem_cons_of_mem _ hp)

/-- C5 (amended): for a response whose headers contain no case-insensitive
`content-length` (so serialisation auto-injects one) and whose header names
and values are free of CR bytes, the serialised output's first `\r\n\r\n` is
the header terminator: the bytes after it are exactly the body, their count
equals the body length, and the (auto-added) `Content-Length` value is the
decimal body length.  Moreover serialisation injects `Content-Length` iff no
case-insensitive `content-length` header exists: with one present the header
map is emitted unchanged. -/
theorem serialise_framing (r : Response)
    (hnocl : hasHeaderIgnoreCase r.headers (str "Content-Length") = false)
    (hclean : ∀ kv ∈ r.headers, ¬ '\r' ∈ kv.1 ∧ ¬ '\r' ∈ kv.2) :
    r.serialHeaders = r.headers ++ [(str "Content-Length", natToBytes r.body.length)] ∧
    mapGet? r.serialHeaders (str "Content-Length") = some (natToBytes r.body.length) ∧
    (∃ k, firstOccur (str "\r\n\r\n") r.Bytes = some k ∧
      (r.Bytes).drop (k + 4) = r.body ∧
      ((r.Bytes).drop (k + 4)).length = r.body.length) ∧
    (∀ r' : Response, hasHeaderIgnoreCase r'.headers (str "Content-Length") = true →
      r'.serialHeaders = r'.headers) := by
  have habsent : ∀ kv ∈ r.headers, kv.1 ≠ str "Content-Length" :=
    hasHeaderIgnoreCase_false_forall hnocl
  have hsh : r.serialHeaders = r.headers ++ [(str "Content-Length", natToBytes r.body.length)] := by
    unfold Response.serialHeaders
    rw [hnocl]
    simp only [Bool.false_eq_true, if_false]
    exact mapSet_append_of_absent _ habsent
  have hcleanSH : ∀ kv ∈ r.serialHeaders, ¬ '\r' ∈ kv.1 ∧ ¬ '\r' ∈ kv.2 := by
    rw [hsh]
    intro kv hkv
    rcases List.mem_append.mp hkv with h1 | h1
    · exact hclean kv h1
    · rw [List.mem_singleton] at h1
      subst h1
      constructor
      · show '\r' ∉ str "Content-Length"
        decide
      · show '\r' ∉ natToBytes r.body.length
        intro hc
        exact absurd rfl (natToBytesAux_clean _ _ '\r' hc)
  have hshne : r.serialHeaders ≠ [] := by
    rw [hsh]
    simp
  refine ⟨hsh, ?_, ?_, ?_⟩
  · rw [hsh]
    exact mapGet?_append_last _ habsent
  · -- locate the delimiter in the serialised bytes
    rcases hcons : r.serialHeaders with _ | ⟨kv0, rest0⟩
    · exact absurd hcons hshne
    have hclean0 := hcleanSH kv0 (by rw [hcons]; exact List.mem_cons_self _ _)
    obtain ⟨c2, t2, hct, hc2⟩ := exists_cons_headerLine kv0 hclean0.1
      ((rest0.map headerLine).flatten ++ (str "\r\n" ++ r.body))
    have hflat : (r.serialHeaders.map headerLine).flatten ++ (str "\r\n" ++ r.body)
        = c2 :: t2 := by
      rw [hcons, List.map_cons, List.flatten_cons, List.append_assoc]
      exact hct
    obtain ⟨hfo, hlen2⟩ := firstOccur_flatten_block r.serialHeaders hshne hcleanSH r.body
    have hpre : r.Bytes
        = ((((str "HTTP/1.1 " ++ intToBytes r.statusCode ++ str " "
            ++ statusText r.statusCode) ++ str "\r\n")
            ++ (r.serialHeaders.map headerLine).flatten) ++ str "\r\n") ++ r.body := rfl
    have htail : str "\r\n"
        ++ ((r.serialHeaders.map headerLine).flatten ++ (str "\r\n" ++ r.body))
        = '\r' :: '\n' :: c2 :: t2 := by
      rw [hflat]
      rfl
    have hshape : r.Bytes
        = (str "HTTP/1.1 " ++ intToBytes r.statusCode ++ str " " ++ statusText r.statusCode)
          ++ ('\r' :: '\n' :: c2 :: t2) := by
      rw [hpre, ← htail]
      simp [List.append_assoc]
    have hplen : (((((str "HTTP/1.1 " ++ intToBytes r.statusCode ++ str " "
        ++ statusText r.statusCode) ++ str "\r\n")
        ++ (r.serialHeaders.map headerLine).flatten) ++ str "\r\n")).length
        = (str "HTTP/1.1 " ++ intToBytes r.statusCode ++ str " "
            ++ statusText r.statusCode).length
          + (2 + ((r.serialHeaders.map headerLine).flatten.length - 2)) + 4 := by
      rw [List.length_append, List.length_append, List.length_append,
        show (str "\r\n").length = 2 from rfl]
      omega
    have hdrop : (r.Bytes).drop ((str "HTTP/1.1 " ++ intToBytes r.statusCode ++ str " "
        ++ statusText r.statusCode).length
        + (2 + ((r.serialHeaders.map headerLine).flatten.length - 2)) + 4) = r.body := by
      rw [hpre, List.drop_left' hplen]
    refine ⟨(str "HTTP/1.1 " ++ intToBytes r.statusCode ++ str " "
        ++ statusText r.statusCode).length
        + (2 + ((r.serialHeaders.map headerLine).flatten.length - 2)), ?_, hdrop,
        by rw [hdrop]⟩
    rw [show str "\r\n\r\n" = '\r' :: str "\n\r\n" from rfl, hshape,
      firstOccur_append_shift (statusLine_clean r.statusCode),
      firstOccur_crlf4_skip2 hc2, ← hflat, hfo]
    simp only [Option.map_some']
    congr 1
    omega
  · intro r' hcl
    unfold Response.serialHeaders
    rw [hcl]
    simp

/-- C5 counterexample: a handler-supplied `Content-Length: 5` on a 3-byte
body is serialised verbatim (no auto-injection), and the bytes after the
first `\r\n\r\n` of the output number 3, not the header's value 5 — the
claimed invariant fails for handler-supplied Content-Length values. -/
theorem serialise_handler_mismatch :
    firstOccur (str "\r\n\r\n") clMismatchResp.Bytes = some 34 ∧
    ((clMismatchResp.Bytes).drop (34 + 4)).length = 3 ∧
    mapGet? clMismatchResp.serialHeaders (str "Content-Length") = some (str "5") ∧
    goAtoi (str "5") = some 5 ∧
    (3 : Nat) ≠ 5 := by
  refine ⟨by rfl, by rfl, by rfl, by rfl, by decide⟩

/-- Witness for C5 at a concrete clean response without a content-length
header. -/
theorem serialise_framing_witness :
    plainResp.serialHeaders
      = [(str "X-K", str "y")] ++ [(str "Content-Length", natToBytes 2)] ∧
    (∃ k, firstOccur (str "\r\n\r\n") plainResp.Bytes = some k ∧
      (plainResp.Bytes).drop (k + 4) = str "ok" ∧
      ((plainResp.Bytes).drop (k + 4)).length = 2) := by
  have h := serialise_framing plainResp (by rfl) (by decide)
  exact ⟨h.1, h.2.2.1⟩

end LightServe
